import Mathlib

/-!
Shallow embedding of `focusctl` (src/focusctl/src/main.rs) and proofs about it.

Strings are modelled through their underlying character lists; every string
primitive used by the program (`trim`, `starts_with`, `ends_with`, `split`,
`strip_suffix`, `lines`, `join`) is re-implemented structurally so that the
embedding is executable and induction-friendly.  Rust's Unicode `char::is_whitespace`
is modelled by the same code-point table; `str::to_lowercase` is modelled by
ASCII case folding (the program only ever compares ASCII configuration tokens).
-/

set_option maxRecDepth 20000

namespace Focusctl

/-- The code points with the Unicode `White_Space` property, as used by Rust's
`char::is_whitespace`. -/
def isWhitespaceChar (c : Char) : Bool :=
  [0x09, 0x0A, 0x0B, 0x0C, 0x0D, 0x20, 0x85, 0xA0, 0x1680,
   0x2000, 0x2001, 0x2002, 0x2003, 0x2004, 0x2005, 0x2006, 0x2007,
   0x2008, 0x2009, 0x200A, 0x2028, 0x2029, 0x202F, 0x205F, 0x3000].contains c.toNat

/-- Drop leading whitespace characters (Rust `str::trim_start`). -/
def trimLeftChars : List Char → List Char
  | [] => []
  | c :: cs => if isWhitespaceChar c then trimLeftChars cs else c :: cs

/-- Rust `str::trim`: drop leading and trailing whitespace. -/
def trimChars (l : List Char) : List Char :=
  (trimLeftChars ((trimLeftChars l).reverse)).reverse

/-- Rust `str::split` with a char predicate: pieces between separator
occurrences, keeping empty pieces (`"".split(p)` yields one empty piece). -/
def splitChars (p : Char → Bool) : List Char → List (List Char)
  | [] => [[]]
  | c :: cs =>
    let r := splitChars p cs
    if p c then [] :: r else (c :: r.headI) :: r.tail

/-- Rust `[String]::join(sep)`. -/
def joinData (sep : List Char) : List (List Char) → List Char
  | [] => []
  | [x] => x
  | x :: xs => x ++ sep ++ joinData sep xs

/-- One trailing `'\r'` removed, for `str::lines` CRLF handling. -/
def stripCR (cs : List Char) : List Char :=
  match cs.getLast? with
  | some c => if c = '\r' then cs.dropLast else cs
  | none => cs

/-- Rust `str::trim` lifted to `String`. -/
def rTrim (s : String) : String := ⟨trimChars s.data⟩

/-- Rust `str::starts_with`. -/
def rStartsWith (s pre : String) : Bool := pre.data.isPrefixOf s.data

/-- Rust `str::ends_with`. -/
def rEndsWith (s suf : String) : Bool := suf.data.isSuffixOf s.data

/-- Drop the first `n` characters of a string (used to model slicing off an
ASCII `key=` prefix). -/
def rDrop (s : String) (n : Nat) : String := ⟨s.data.drop n⟩

def strLen (s : String) : Nat := s.data.length

/-- Rust `str::lines`: split at `'\n'`, drop a final empty piece (trailing
newline), strip `'\r'` from newline-terminated pieces. -/
def rlines (s : String) : List String :=
  let ps := splitChars (fun c => c == '\n') s.data
  let terminated := ps.dropLast.map stripCR
  let lastPiece := ps.getLastD []
  ((if lastPiece = [] then terminated else terminated ++ [lastPiece]).map
    fun cs => (⟨cs⟩ : String))

/-- Rust `u32::from_str`: optional leading `'+'`, at least one ASCII digit,
value below `2^32`. -/
def parseU32 (s : String) : Option Nat :=
  let ds := match s.data with
    | '+' :: rest => rest
    | l => l
  if ds ≠ [] ∧ ds.all Char.isDigit then
    let v := ds.foldl (fun n c => n * 10 + (c.toNat - 48)) 0
    if v < 4294967296 then some v else none
  else none

-- -------------------------------
-- Parsing + normalization (main.rs: class_key / parse_classes / join_classes)
-- -------------------------------

/-- `class_key` from main.rs: trim; empty stays empty; lowercase; strip one
trailing `".desktop"`.  Lowercasing is modelled by ASCII case folding. -/
def class_key (s : String) : String :=
  let t := trimChars s.data
  if t = [] then ""
  else
    let lower := t.map Char.toLower
    if (".desktop".data).isSuffixOf lower then
      ⟨lower.take (lower.length - (".desktop".data).length)⟩
    else ⟨lower⟩

/-- The separator predicate of `parse_classes`: `';'`, `','` or whitespace. -/
def isSepChar (c : Char) : Bool := c == ';' || c == ',' || isWhitespaceChar c

/-- `parse_classes` from main.rs: split on `;`/`,`/whitespace, trim each
piece, drop empty pieces. -/
def parse_classes (value : String) : List String :=
  (((splitChars isSepChar value.data).map fun cs => (⟨trimChars cs⟩ : String)).filter
    fun s => s != "")

/-- `join_classes` from main.rs: `classes.join(";")`. -/
def join_classes (classes : List String) : String :=
  ⟨joinData [';'] (classes.map String.data)⟩

-- -------------------------------
-- Grouped-config scan (main.rs: extract_script_config / extract_plugins_enabled)
-- -------------------------------

def GROUP_NAME : String := "Script-kwin-focus-helper"
def KEY_NAME : String := "forceFocusClasses"
def SCRIPT_ID : String := "kwin-focus-helper"
def PLUGINS_GROUP : String := "Plugins"

structure ScanResult where
  hdrIdx : Option Nat
  valIdx : Option Nat
  value : String

/-- `[group]` header text. -/
def hdrStr (group : String) : String := "[" ++ group ++ "]"

/-- A (trimmed) line is a section header when it starts with `[` and ends
with `]`. -/
def isHeaderLine (t : String) : Bool := rStartsWith t "[" && rEndsWith t "]"

/-- One step of the forward scan shared by `extract_script_config` and
`extract_plugins_enabled`: header lines toggle the in-group flag and record
the header index; inside the group, a `key=` line records its index and the
text after `=` of the trimmed line (last occurrence wins). -/
def scanStep (group key : String) (i : Nat) (ing : Bool) (acc : ScanResult)
    (l : String) : Bool × ScanResult :=
  let t := rTrim l
  if isHeaderLine t then
    if t = hdrStr group then (true, { acc with hdrIdx := some i })
    else (false, acc)
  else if ing && rStartsWith t (key ++ "=") then
    (ing, { hdrIdx := acc.hdrIdx, valIdx := some i,
            value := rDrop t (strLen (key ++ "=")) })
  else (ing, acc)

def scanAux (group key : String) : List String → Nat → Bool → ScanResult → ScanResult
  | [], _, _, acc => acc
  | l :: ls, i, ing, acc =>
    let s := scanStep group key i ing acc l
    scanAux group key ls (i + 1) s.1 s.2

/-- The full forward scan of both extract functions, starting outside any
group with nothing recorded. -/
def locate (group key : String) (lines : List String) : ScanResult :=
  scanAux group key lines 0 false ⟨none, none, ""⟩

/-- `extract_script_config` from main.rs. -/
def extract_script_config (lines : List String) : ScanResult :=
  locate GROUP_NAME KEY_NAME lines

/-- The `[Plugins]` key name `kwin-focus-helperEnabled`. -/
def enabledKey : String := SCRIPT_ID ++ "Enabled"

/-- Truthiness test of `extract_plugins_enabled`: the value after `=`,
trimmed and lowercased, equals `true`, `1` or `yes`. -/
def truthy (v : String) : Bool :=
  let w : String := ⟨(trimChars v.data).map Char.toLower⟩
  w == "true" || w == "1" || w == "yes"

/-- `extract_plugins_enabled` from main.rs: same scan over `[Plugins]` /
`kwin-focus-helperEnabled`; the enabled flag is recorded together with the
value line, so it is `some` exactly when a value line was found and reflects
the last value seen. -/
def extract_plugins_enabled (lines : List String) :
    Option Nat × Option Nat × Option Bool :=
  let r := locate PLUGINS_GROUP enabledKey lines
  (r.hdrIdx, r.valIdx, r.valIdx.map fun _ => truthy r.value)

-- -------------------------------
-- Specification-side view of the scan: section tracking and positional
-- predicates (used to state what `locate` returns)
-- -------------------------------

/-- How one line updates the in-group flag: a header line enters the target
group exactly when it matches, leaves it otherwise; other lines keep it. -/
def groupStep (group : String) (b : Bool) (l : String) : Bool :=
  let t := rTrim l
  if isHeaderLine t then decide (t = hdrStr group) else b

/-- Fold `groupStep` over lines from a starting flag. -/
def inGroupFrom (group : String) (b : Bool) : List String → Bool
  | [] => b
  | l :: ls => inGroupFrom group (groupStep group b l) ls

/-- The in-group flag after scanning the given lines from outside any group. -/
def inGroupAfter (group : String) (ls : List String) : Bool :=
  inGroupFrom group false ls

/-- Line `k` exists and its trimmed form is exactly the target header. -/
@[reducible] def targetHdrAt (group : String) (lines : List String) (k : Nat) : Prop :=
  k < lines.length ∧ rTrim (lines.getD k "") = hdrStr group

/-- Line `k` exists, is not a header, and its trimmed form starts with
`key=`. -/
@[reducible] def keyLineAt (key : String) (lines : List String) (k : Nat) : Prop :=
  k < lines.length ∧ isHeaderLine (rTrim (lines.getD k "")) = false ∧
    rStartsWith (rTrim (lines.getD k "")) (key ++ "=") = true

/-- Position `k` lies inside the target section: the scan is in-group after
the first `k` lines. -/
@[reducible] def inSectionAt (group : String) (lines : List String) (k : Nat) : Prop :=
  inGroupAfter group (lines.take k) = true

/-- Line `k` is a `key=` line inside the target section. -/
@[reducible] def keyHitAt (group key : String) (lines : List String) (k : Nat) : Prop :=
  keyLineAt key lines k ∧ inSectionAt group lines k

/-- The text after `key=` on the trimmed line `m`. -/
def lineValueAt (key : String) (lines : List String) (m : Nat) : String :=
  rDrop (rTrim (lines.getD m "")) (strLen (key ++ "="))

/-- Well-formedness of a key spelling: its first character (when any) is
neither whitespace nor `[`, so a written `key=value` line is recognized as a
key line and never as a header.  Both keys the program writes
(`forceFocusClasses`, `kwin-focus-helperEnabled`) satisfy this. -/
def goodKey (key : String) : Prop :=
  ∀ c, key.data.head? = some c → isWhitespaceChar c = false ∧ c ≠ '['

-- -------------------------------
-- Grouped-config writer (the match block of set_classes / set_enabled)
-- -------------------------------

/-- `Vec::insert(n, a)` (indices at and after `n` shift right). -/
def insertAt (n : Nat) (a : α) (l : List α) : List α :=
  l.take n ++ a :: l.drop n

/-- `lines[n] = a` (in-place replacement). -/
def setAt (n : Nat) (a : α) (l : List α) : List α :=
  l.take n ++ a :: l.drop (n + 1)

/-- The upsert decision of `set_classes`/`set_enabled`: replace the value line
in place, insert right after the group header, or append (a blank separator
when the document is non-empty and does not end in a blank line, then) the
header and the new line at the end. -/
def upsert (group key : String) (lines : List String) (value : String) : List String :=
  let cfg := locate group key lines
  let newLine := key ++ "=" ++ value
  match cfg.hdrIdx, cfg.valIdx with
  | some _, some v => setAt v newLine lines
  | some h, none => insertAt (h + 1) newLine lines
  | none, _ =>
    (if lines.getLastD "" ≠ "" then lines ++ [""] else lines) ++
      [hdrStr group, newLine]

/-- Re-join lines with a trailing newline on every line. -/
def unlines (ls : List String) : String :=
  ⟨(ls.map fun l => l.data ++ ['\n']).flatten⟩

/-- The document produced by `set_classes`: read contents (empty file gives an
empty line list), upsert the joined class list, re-join. -/
def set_classes_doc (contents : String) (classes : List String) : String :=
  let lines := if contents = "" then [] else rlines contents
  unlines (upsert GROUP_NAME KEY_NAME lines (join_classes classes))

-- -------------------------------
-- Class-list command handlers (list-level mutations of add-class / remove-class)
-- -------------------------------

/-- The list mutation of the `add-class` handler: trim the argument, refuse an
empty key, refuse a duplicate by normalized key, otherwise push the trimmed
spelling. -/
def add_class_list (classes : List String) (arg : String) : List String :=
  let input : String := ⟨trimChars arg.data⟩
  let ikey := class_key input
  if ikey = "" then classes
  else if classes.any fun c => class_key c == ikey then classes
  else classes ++ [input]

/-- The list mutation of the `remove-class` handler: retain entries whose
normalized key differs from the argument's key (an empty key aborts). -/
def remove_class_list (classes : List String) (arg : String) : List String :=
  let tkey := class_key arg
  if tkey = "" then classes
  else classes.filter fun c => class_key c != tkey

/-- No two entries share a normalized key. -/
def noDupKeys (classes : List String) : Prop :=
  (classes.map class_key).Nodup

instance (classes : List String) : Decidable (noDupKeys classes) := by
  unfold noDupKeys; infer_instance

-- -------------------------------
-- Session environment detection (main.rs: detect_session_env_for_uid)
-- -------------------------------

/-- The external collaborators `detect_session_env_for_uid` can observe.
`env` (the process's own environment) and `runtimeDirExists` (whether
`/run/user/<uid>` exists on disk) are part of the world so that claims about
them can be stated; the function under scrutiny receives the whole world. -/
structure SessionWorld where
  env : String → Option String
  runtimeDirExists : Nat → Bool
  haveLoginctl : Bool
  listSessions : Except String (Bool × String)
  showSession : String → String → Option String

/-- A session-management query the program may issue. -/
inductive SessionQuery where
  | listSessions
  | showSession (sid : String) (propName : String)
deriving DecidableEq

/-- `loginctl show-session <sid> -p <prop> --value` as consumed by main.rs:
stdout trimmed, any failure collapsing to the empty string. -/
def showProp (w : SessionWorld) (sid p : String) : String :=
  match w.showSession sid p with
  | some s => rTrim s
  | none => ""

/-- `line.split_whitespace().next()`: the first whitespace-free token. -/
def firstToken (s : String) : Option String :=
  match (splitChars isWhitespaceChar s.data).filter (fun cs => cs ≠ []) with
  | [] => none
  | t :: _ => some (⟨t⟩ : String)

/-- The per-row filter of `detect_session_env_for_uid`: query Active, Class,
Type, State and User in order with short-circuit, then the two environment
properties; return them when both are non-empty.  The second component is the
list of session-property queries issued for this row. -/
def detect_row (w : SessionWorld) (uid : Nat) (sid : String) :
    Option (String × String) × List SessionQuery :=
  let qA := SessionQuery.showSession sid "Active"
  let qC := SessionQuery.showSession sid "Class"
  let qT := SessionQuery.showSession sid "Type"
  let qS := SessionQuery.showSession sid "State"
  let qU := SessionQuery.showSession sid "User"
  let qX := SessionQuery.showSession sid "XDG_RUNTIME_DIR"
  let qD := SessionQuery.showSession sid "DBUS_SESSION_BUS_ADDRESS"
  let active := showProp w sid "Active"
  if active ≠ "yes" then (none, [qA]) else
  let cls := showProp w sid "Class"
  if cls ≠ "user" then (none, [qA, qC]) else
  let ty := showProp w sid "Type"
  if ty ≠ "wayland" ∧ ty ≠ "x11" then (none, [qA, qC, qT]) else
  let st := showProp w sid "State"
  if st ≠ "active" ∧ st ≠ "online" then (none, [qA, qC, qT, qS]) else
  match parseU32 (showProp w sid "User") with
  | none => (none, [qA, qC, qT, qS, qU])
  | some suid =>
    if suid ≠ uid then (none, [qA, qC, qT, qS, qU]) else
    let xdg := showProp w sid "XDG_RUNTIME_DIR"
    let dbus := showProp w sid "DBUS_SESSION_BUS_ADDRESS"
    if xdg ≠ "" ∧ dbus ≠ "" then (some (xdg, dbus), [qA, qC, qT, qS, qU, qX, qD])
    else (none, [qA, qC, qT, qS, qU, qX, qD])

/-- Walk the `list-sessions` rows: take each row's first token as session id,
run the per-row filter, return at the first hit. -/
def detect_lines (w : SessionWorld) (uid : Nat) :
    List String → Option (String × String) × List SessionQuery
  | [] => (none, [])
  | l :: ls =>
    match firstToken l with
    | none => detect_lines w uid ls
    | some sid =>
      match detect_row w uid sid with
      | (some r, q) => (some r, q)
      | (none, q) =>
        let rest := detect_lines w uid ls
        (rest.1, q ++ rest.2)

/-- `detect_session_env_for_uid` from main.rs, with its session-management
query trace made explicit.  Note it consults neither `w.env` nor
`w.runtimeDirExists`. -/
def detect_session_env_for_uid (w : SessionWorld) (uid : Nat) :
    Except String (Option (String × String)) × List SessionQuery :=
  if w.haveLoginctl = false then (.ok none, [])
  else
    match w.listSessions with
    | .error e => (.error e, [SessionQuery.listSessions])
    | .ok (succ, outText) =>
      if succ = false then (.ok none, [SessionQuery.listSessions])
      else
        let r := detect_lines w uid (rlines outText)
        (.ok r.1, SessionQuery.listSessions :: r.2)

-- -------------------------------
-- Reload dispatcher (main.rs: reload_kwin_config)
-- -------------------------------

/-- The candidate bus-tool binaries, in priority order. -/
def qdbusCandidates : List String := ["qdbus6", "qdbus-qt6", "qdbus-qt5", "qdbus"]

/-- Availability and invocation outcome of each candidate binary. -/
structure ReloadWorld where
  haveCmd : String → Bool
  runOk : String → Bool

inductive ReloadOutcome where
  | success (prog : String)
  | failure
deriving DecidableEq

/-- The candidate loop of `reload_kwin_config`: skip missing binaries, stop at
the first successful invocation. -/
def reload_try (rw : ReloadWorld) : List String → ReloadOutcome
  | [] => .failure
  | p :: ps => if rw.haveCmd p && rw.runOk p then .success p else reload_try rw ps

/-- `reload_kwin_config` from main.rs (the session-env detection only feeds
environment variables into the attempts; the control flow depends on the
candidates alone).  It always returns: failure is reported only as messages. -/
def reload_kwin_config (rw : ReloadWorld) : ReloadOutcome :=
  reload_try rw qdbusCandidates

/-- The diagnostics `reload_kwin_config` prints. -/
def reload_messages (rw : ReloadWorld) : List String :=
  match reload_kwin_config rw with
  | .success p => ["focusctl: requested KWin reconfigure via " ++ p]
  | .failure =>
      ["focusctl: could not call qdbus/qdbus6; you may need to run manually:",
       "\tqdbus org.kde.KWin /KWin reconfigure"]

-- -------------------------------
-- The set_classes operation with its effects (main.rs: set_classes)
-- -------------------------------

/-- Observable outcome of one `set_classes` call. -/
structure RunOutcome where
  result : Except String Unit
  written : Option String
  reloaded : Bool
  messages : List String

/-- `set_classes` from main.rs as a function of its effects: the read result
is collapsed with `unwrap_or_default()` (errors become an empty file), the
new document is computed and written, a write error propagates, and on write
success the best-effort reload runs (when requested) without influencing the
returned result. -/
def set_classes_run (readRes : Except String String) (writeErr : Option String)
    (rw : ReloadWorld) (classes : List String) (doReconfigure : Bool) : RunOutcome :=
  let contents := match readRes with
    | .ok s => s
    | .error _ => ""
  let doc := set_classes_doc contents classes
  match writeErr with
  | some e => { result := .error e, written := none, reloaded := false, messages := [] }
  | none =>
    { result := .ok (), written := some doc, reloaded := doReconfigure,
      messages := if doReconfigure then reload_messages rw else [] }

/-- The document produced by `set_enabled` (main.rs lines 706-746): read
contents (empty file gives an empty line list), upsert
`kwin-focus-helperEnabled=true|false` under `[Plugins]` (the match block is
the same replace/insert/append decision as in `set_classes`), re-join. -/
def set_enabled_doc (contents : String) (enabled : Bool) : String :=
  let lines := if contents = "" then [] else rlines contents
  unlines (upsert PLUGINS_GROUP enabledKey lines (if enabled then "true" else "false"))

/-- `set_enabled` from main.rs (the `enable`/`disable` commands) as a function
of its effects: like `set_classes`, the read result is collapsed with
`unwrap_or_default()` (errors become an empty file), a write error
propagates, and a requested reload never influences the returned result. -/
def set_enabled_run (readRes : Except String String) (writeErr : Option String)
    (rw : ReloadWorld) (enabled : Bool) (doReconfigure : Bool) : RunOutcome :=
  let contents := match readRes with
    | .ok s => s
    | .error _ => ""
  let doc := set_enabled_doc contents enabled
  match writeErr with
  | some e => { result := .error e, written := none, reloaded := false, messages := [] }
  | none =>
    { result := .ok (), written := some doc, reloaded := doReconfigure,
      messages := if doReconfigure then reload_messages rw else [] }

-- -------------------------------
-- Identity resolution (main.rs: parse_passwd / find_user_by_* / main)
-- -------------------------------

/-- The resolved account record (`Target` in main.rs, gid not tracked there
either). -/
structure Target where
  uid : Nat
  user : String
  home : String
deriving DecidableEq

/-- One `/etc/passwd` line as consumed by `parse_passwd`: skip blank and `#`
lines, require at least 7 colon-separated fields, skip lines whose uid field
does not parse. -/
def parse_passwd_line (line : String) : Option (String × Nat × String) :=
  if rTrim line = "" then none
  else if rStartsWith line "#" then none
  else
    let parts := (splitChars (fun c => c == ':') line.data).map
      fun cs => (⟨cs⟩ : String)
    if parts.length < 7 then none
    else
      match parseU32 (parts.getD 2 "") with
      | none => none
      | some uid => some (parts.getD 0 "", uid, parts.getD 5 "")

/-- `parse_passwd` from main.rs. -/
def parse_passwd (s : String) : List (String × Nat × String) :=
  (rlines s).filterMap parse_passwd_line

/-- `find_user_by_name` from main.rs: first record with a matching name. -/
def find_user_by_name (passwd : List (String × Nat × String)) (name : String) :
    Option Target :=
  match passwd.find? (fun e => e.1 == name) with
  | some (n, uid, home) => some ⟨uid, n, home⟩
  | none => none

/-- `find_user_by_uid` from main.rs: first record with a matching uid. -/
def find_user_by_uid (passwd : List (String × Nat × String)) (uid : Nat) :
    Option Target :=
  match passwd.find? (fun e => e.2.1 == uid) with
  | some (n, u, home) => some ⟨u, n, home⟩
  | none => none

/-- The target-selection logic of `main` (main.rs lines 869-980): an explicit
`--user` is resolved first; otherwise an explicit `--uid`; otherwise
`--session-auto` resolves the uid picked from the session scan (modelled by
`autoUid`, `none` when no session qualifies); otherwise the current process
identity.  `none` models the error paths that print and return. -/
def determine_target (passwd : List (String × Nat × String))
    (targetUid : Option Nat) (targetUser : Option String)
    (sessionAuto : Bool) (autoUid : Option Nat) (cur : Target) : Option Target :=
  match targetUser with
  | some name => find_user_by_name passwd name
  | none =>
    match targetUid with
    | some uid => find_user_by_uid passwd uid
    | none =>
      if sessionAuto then
        match autoUid with
        | some uid => find_user_by_uid passwd uid
        | none => none
      else some cur

-- -------------------------------
-- Concrete scenario data used by counterexamples and witnesses
-- -------------------------------

/-- A world whose process environment already carries a non-empty runtime
directory, while the session-management subsystem advertises a different
one. -/
def sessionWorldEnvSet : SessionWorld where
  env := fun k => if k = "XDG_RUNTIME_DIR" then some "/run/user/1000" else none
  runtimeDirExists := fun _ => true
  haveLoginctl := true
  listSessions := .ok (true, "7 1000 alice seat0\n")
  showSession := fun sid p =>
    if sid = "7" then
      if p = "Active" then some "yes"
      else if p = "Class" then some "user"
      else if p = "Type" then some "wayland"
      else if p = "State" then some "active"
      else if p = "User" then some "1000"
      else if p = "XDG_RUNTIME_DIR" then some "/other"
      else if p = "DBUS_SESSION_BUS_ADDRESS" then some "unix:path=/bus"
      else none
    else none

/-- A world in which the target uid's per-uid runtime directory does not
exist on disk, yet the session-management subsystem has a qualifying
session. -/
def sessionWorldNoRuntimeDir : SessionWorld where
  env := fun _ => none
  runtimeDirExists := fun _ => false
  haveLoginctl := true
  listSessions := .ok (true, "7 1000 alice seat0\n")
  showSession := fun sid p =>
    if sid = "7" then
      if p = "Active" then some "yes"
      else if p = "Class" then some "user"
      else if p = "Type" then some "wayland"
      else if p = "State" then some "active"
      else if p = "User" then some "1000"
      else if p = "XDG_RUNTIME_DIR" then some "/other"
      else if p = "DBUS_SESSION_BUS_ADDRESS" then some "unix:path=/bus"
      else none
    else none

/-- The full session-query trace issued in the two concrete worlds above. -/
def fullRowTrace : List SessionQuery :=
  [.listSessions, .showSession "7" "Active", .showSession "7" "Class",
   .showSession "7" "Type", .showSession "7" "State", .showSession "7" "User",
   .showSession "7" "XDG_RUNTIME_DIR", .showSession "7" "DBUS_SESSION_BUS_ADDRESS"]

/-- A reload world in which no candidate bus tool is available. -/
def reloadWorldAllFail : ReloadWorld where
  haveCmd := fun _ => false
  runOk := fun _ => false

/-- A two-account password file for the precedence scenario. -/
def passwdTwo : String :=
  "alice:x:1000:1000::/home/alice:/bin/sh\nbob:x:1001:1001::/home/bob:/bin/sh"

-- ===================================================================
-- Helper lemmas: strings and lists
-- ===================================================================

theorem str_data_inj {a b : String} (h : a.data = b.data) : a = b := by
  cases a; cases b; congr 1

theorem str_data_append (a b : String) : (a ++ b).data = a.data ++ b.data := rfl

theorem getD_append_len {α : Type} (l1 : List α) (a : α) (l2 : List α) (d : α) :
    (l1 ++ a :: l2).getD l1.length d = a := by
  induction l1 with
  | nil => rfl
  | cons x xs ih => simpa using ih

theorem getD_append_gt {α : Type} (l1 : List α) (a : α) (l2 : List α) (k : Nat) (d : α) :
    (l1 ++ a :: l2).getD (l1.length + (k + 1)) d = l2.getD k d := by
  induction l1 with
  | nil => simp [List.getD]
  | cons x xs ih =>
    have : x :: xs ++ a :: l2 = x :: (xs ++ a :: l2) := rfl
    rw [this]
    have harith : (x :: xs).length + (k + 1) = (xs.length + (k + 1)) + 1 := by
      simp; omega
    rw [harith]
    simpa using ih

theorem take_append_self {α : Type} (l1 l2 : List α) : (l1 ++ l2).take l1.length = l1 := by
  rw [List.take_append_of_le_length (Nat.le_refl _), List.take_length]

theorem getD_take {α : Type} (l : List α) (n k : Nat) (d : α) (h : k < n) :
    (l.take n).getD k d = l.getD k d := by
  induction l generalizing n k with
  | nil => simp
  | cons x xs ih =>
    cases n with
    | zero => omega
    | succ n =>
      cases k with
      | zero => rfl
      | succ k => simpa using ih n k (by omega)

theorem take_succ_getD {α : Type} (l : List α) (n : Nat) (d : α) (h : n < l.length) :
    l.take (n + 1) = l.take n ++ [l.getD n d] := by
  induction l generalizing n with
  | nil => simp at h
  | cons x xs ih =>
    cases n with
    | zero => rfl
    | succ n =>
      have := ih n (by simpa using Nat.lt_of_succ_lt_succ h)
      simpa [List.take] using this

theorem setAt_self {α : Type} (l : List α) (n : Nat) (a d : α)
    (hn : n < l.length) (ha : l.getD n d = a) : setAt n a l = l := by
  unfold setAt
  have h1 : l.take (n + 1) = l.take n ++ [l.getD n d] := take_succ_getD l n d hn
  calc l.take n ++ a :: l.drop (n + 1)
      = (l.take n ++ [a]) ++ l.drop (n + 1) := by simp
    _ = l.take (n + 1) ++ l.drop (n + 1) := by rw [h1, ha]
    _ = l := List.take_append_drop _ _

-- ===================================================================
-- Helper lemmas: splitChars, trim
-- ===================================================================

theorem splitChars_ne_nil (p : Char → Bool) (cs : List Char) : splitChars p cs ≠ [] := by
  cases cs with
  | nil => simp [splitChars]
  | cons c cs =>
    unfold splitChars
    split <;> simp

theorem splitChars_sepfree (p : Char → Bool) (cs : List Char)
    (h : ∀ c ∈ cs, p c = false) : splitChars p cs = [cs] := by
  induction cs with
  | nil => rfl
  | cons c cs ih =>
    have hc : p c = false := h c (List.mem_cons_self c cs)
    have ih2 := ih fun x hx => h x (List.mem_cons_of_mem c hx)
    unfold splitChars
    simp [hc, ih2]

theorem splitChars_cons (p : Char → Bool) (c : Char) (cs : List Char) :
    splitChars p (c :: cs) =
      if p c then [] :: splitChars p cs
      else (c :: (splitChars p cs).headI) :: (splitChars p cs).tail := rfl

theorem splitChars_sep_cons (p : Char → Bool) (c : Char) (cs : List Char)
    (hc : p c = true) : splitChars p (c :: cs) = [] :: splitChars p cs := by
  rw [splitChars_cons, if_pos hc]

theorem splitChars_append_sepfree (p : Char → Bool) (xs ys : List Char)
    (h : ∀ c ∈ xs, p c = false) :
    splitChars p (xs ++ ys) =
      (xs ++ (splitChars p ys).headI) :: (splitChars p ys).tail := by
  induction xs with
  | nil =>
    simp only [List.nil_append]
    obtain ⟨z, zs, hz⟩ := List.exists_cons_of_ne_nil (splitChars_ne_nil p ys)
    simp [hz]
  | cons x xs ih =>
    have hx : p x = false := h x (List.mem_cons_self x xs)
    have ih2 := ih fun c hc => h c (List.mem_cons_of_mem x hc)
    simp only [List.cons_append]
    rw [splitChars_cons, if_neg (by simp [hx]), ih2]
    simp

theorem trimLeftChars_of_head (c : Char) (cs : List Char) (h : isWhitespaceChar c = false) :
    trimLeftChars (c :: cs) = c :: cs := by
  simp [trimLeftChars, h]

theorem trimLeftChars_shape (as : List Char) (b : Char) (cs : List Char)
    (hb : isWhitespaceChar b = false) :
    ∃ as2, trimLeftChars (as ++ b :: cs) = as2 ++ b :: cs := by
  induction as with
  | nil => exact ⟨[], by simp [trimLeftChars, hb]⟩
  | cons a as ih =>
    by_cases h : isWhitespaceChar a
    · simpa [trimLeftChars, h] using ih
    · exact ⟨a :: as, by simp [trimLeftChars, h]⟩

theorem trimChars_id (l : List Char) (hh : ∀ c, l.head? = some c → isWhitespaceChar c = false)
    (hl : ∀ c, l.getLast? = some c → isWhitespaceChar c = false) :
    trimChars l = l := by
  unfold trimChars
  cases l with
  | nil => rfl
  | cons x xs =>
    rw [trimLeftChars_of_head x xs (hh x rfl)]
    have hrev : (x :: xs).reverse ≠ [] := by simp
    obtain ⟨y, ys, hy⟩ := List.exists_cons_of_ne_nil hrev
    have hylast : (x :: xs).getLast? = some y := by
      rw [List.getLast?_eq_head?_reverse, hy]; rfl
    rw [hy, trimLeftChars_of_head y ys (hl y hylast), ← hy, List.reverse_reverse]

theorem trimChars_keyline (key v : String) (hk : goodKey key) :
    ∃ w, trimChars (key.data ++ '=' :: v.data) = key.data ++ '=' :: w := by
  unfold trimChars
  have heq : isWhitespaceChar '=' = false := by decide
  -- left trim is the identity: the head is either the key's head or '='
  have hleft : trimLeftChars (key.data ++ '=' :: v.data) = key.data ++ '=' :: v.data := by
    cases hkd : key.data with
    | nil => simpa using trimLeftChars_of_head '=' v.data heq
    | cons c rest =>
      have hc := hk c (by rw [hkd]; rfl)
      simpa using trimLeftChars_of_head c (rest ++ '=' :: v.data) hc.1
  rw [hleft]
  have hrev : (key.data ++ '=' :: v.data).reverse = v.data.reverse ++ '=' :: key.data.reverse := by
    simp
  rw [hrev]
  obtain ⟨as2, has2⟩ := trimLeftChars_shape v.data.reverse '=' key.data.reverse heq
  rw [has2]
  refine ⟨as2.reverse, ?_⟩
  simp

-- ===================================================================
-- Helper lemmas: prefixes, headers, key lines
-- ===================================================================

theorem isPrefixOf_append_self (xs t : List Char) : xs.isPrefixOf (xs ++ t) = true := by
  induction xs with
  | nil => simp [List.isPrefixOf]
  | cons x xs ih => simp [List.isPrefixOf, ih]

theorem hdrStr_data (group : String) : (hdrStr group).data = '[' :: (group.data ++ [']']) := rfl

theorem isHeaderLine_hdrStr (group : String) : isHeaderLine (hdrStr group) = true := by
  unfold isHeaderLine rStartsWith rEndsWith
  rw [hdrStr_data]
  have h1 : ("[".data).isPrefixOf ('[' :: (group.data ++ [']'])) = true := by
    simp [List.isPrefixOf]
  have h2 : ("]".data).isSuffixOf ('[' :: (group.data ++ [']'])) = true := by
    show ((']' :: List.nil).reverse).isPrefixOf ('[' :: (group.data ++ [']'])).reverse = true
    simp [List.isPrefixOf]
  rw [h1, h2]
  rfl

theorem rTrim_hdrStr (group : String) : rTrim (hdrStr group) = hdrStr group := by
  apply str_data_inj
  show trimChars (hdrStr group).data = (hdrStr group).data
  apply trimChars_id
  · intro c hc
    rw [hdrStr_data] at hc
    cases hc
    decide
  · intro c hc
    rw [hdrStr_data] at hc
    have : ('[' :: (group.data ++ [']'])).getLast? = some ']' := by
      show (('[' :: group.data) ++ [']']).getLast? = some ']'
      exact List.getLast?_concat _
    rw [this] at hc
    cases hc
    decide

/-- The written `key=value` line, trimmed, still starts with `key=`. -/
theorem keyline_starts (key v : String) (hk : goodKey key) :
    rStartsWith (rTrim (key ++ "=" ++ v)) (key ++ "=") = true := by
  have hdata : (key ++ "=" ++ v).data = key.data ++ '=' :: v.data := by
    show (key.data ++ "=".data) ++ v.data = key.data ++ '=' :: v.data
    simp
  obtain ⟨w, hw⟩ := trimChars_keyline key v hk
  show ((key ++ "=").data).isPrefixOf (trimChars (key ++ "=" ++ v).data) = true
  rw [hdata, hw]
  have h2 : (key ++ "=").data = key.data ++ ['='] := rfl
  rw [h2]
  have h3 : key.data ++ '=' :: w = (key.data ++ ['=']) ++ w := by simp
  rw [h3]
  exact isPrefixOf_append_self _ _

/-- The written `key=value` line, trimmed, is not a header line. -/
theorem keyline_not_header (key v : String) (hk : goodKey key) :
    isHeaderLine (rTrim (key ++ "=" ++ v)) = false := by
  have hdata : (key ++ "=" ++ v).data = key.data ++ '=' :: v.data := by
    show (key.data ++ "=".data) ++ v.data = key.data ++ '=' :: v.data
    simp
  obtain ⟨w, hw⟩ := trimChars_keyline key v hk
  unfold isHeaderLine rStartsWith
  have hcase : ("[".data).isPrefixOf (rTrim (key ++ "=" ++ v)).data = false := by
    show ("[".data).isPrefixOf (trimChars (key ++ "=" ++ v).data) = false
    rw [hdata, hw]
    cases hkd : key.data with
    | nil => simp [List.isPrefixOf]
    | cons c rest =>
      have hc := (hk c (by rw [hkd]; rfl)).2
      simp [List.isPrefixOf]
      intro h
      exact absurd h.symm hc
  rw [hcase]
  rfl

/-- A line whose trimmed form is the target header is recognized as a
header line. -/
theorem header_of_trim_eq {group : String} {l : String}
    (h : rTrim l = hdrStr group) : isHeaderLine (rTrim l) = true := by
  rw [h]; exact isHeaderLine_hdrStr group

-- ===================================================================
-- Scan decomposition
-- ===================================================================

theorem scanAux_nil (group key : String) (i : Nat) (b : Bool) (acc : ScanResult) :
    scanAux group key [] i b acc = acc := rfl

theorem scanAux_cons (group key : String) (l : String) (ls : List String) (i : Nat)
    (b : Bool) (acc : ScanResult) :
    scanAux group key (l :: ls) i b acc =
      scanAux group key ls (i + 1) (scanStep group key i b acc l).1
        (scanStep group key i b acc l).2 := rfl

theorem inGroupFrom_nil (group : String) (b : Bool) : inGroupFrom group b [] = b := rfl

theorem inGroupFrom_cons (group : String) (b : Bool) (l : String) (ls : List String) :
    inGroupFrom group b (l :: ls) = inGroupFrom group (groupStep group b l) ls := rfl

theorem scanStep_fst (group key : String) (i : Nat) (ing : Bool) (acc : ScanResult)
    (l : String) : (scanStep group key i ing acc l).1 = groupStep group ing l := by
  unfold scanStep groupStep
  by_cases h1 : isHeaderLine (rTrim l)
  · simp only [h1, if_true]
    by_cases h2 : rTrim l = hdrStr group <;> simp [h2]
  · simp [h1]
    split <;> rfl

theorem scanAux_append (group key : String) (xs ys : List String) (i : Nat) (b : Bool)
    (acc : ScanResult) :
    scanAux group key (xs ++ ys) i b acc =
      scanAux group key ys (i + xs.length) (inGroupFrom group b xs)
        (scanAux group key xs i b acc) := by
  induction xs generalizing i b acc with
  | nil => simp [scanAux_nil, inGroupFrom_nil]
  | cons x xs ih =>
    rw [List.cons_append, scanAux_cons, ih, scanAux_cons, inGroupFrom_cons, scanStep_fst]
    have harith : i + 1 + xs.length = i + (x :: xs).length := by simp; omega
    rw [harith]

theorem inGroupFrom_append (group : String) (b : Bool) (xs ys : List String) :
    inGroupFrom group b (xs ++ ys) = inGroupFrom group (inGroupFrom group b xs) ys := by
  induction xs generalizing b with
  | nil => rfl
  | cons x xs ih => rw [List.cons_append, inGroupFrom_cons, ih, inGroupFrom_cons]

theorem inGroupAfter_snoc (group : String) (xs : List String) (l : String) :
    inGroupAfter group (xs ++ [l]) = groupStep group (inGroupAfter group xs) l := by
  unfold inGroupAfter
  rw [inGroupFrom_append]
  rfl

theorem locate_nil (group key : String) :
    locate group key [] = ⟨none, none, ""⟩ := rfl

theorem locate_snoc (group key : String) (xs : List String) (l : String) :
    locate group key (xs ++ [l]) =
      (scanStep group key xs.length (inGroupAfter group xs) (locate group key xs) l).2 := by
  unfold locate inGroupAfter
  rw [scanAux_append, scanAux_cons, scanAux_nil]
  simp

-- ===================================================================
-- Positional predicates under snoc
-- ===================================================================

theorem targetHdrAt_snoc_lt {group : String} {xs : List String} {l : String} {k : Nat}
    (h : k < xs.length) : targetHdrAt group (xs ++ [l]) k ↔ targetHdrAt group xs k := by
  have hg : (xs ++ [l]).getD k "" = xs.getD k "" := List.getD_append _ _ _ _ h
  constructor
  · rintro ⟨_, h2⟩
    rw [hg] at h2
    exact ⟨h, h2⟩
  · rintro ⟨_, h2⟩
    refine ⟨?_, ?_⟩
    · rw [List.length_append]; omega
    · rw [hg]; exact h2

theorem targetHdrAt_snoc_len {group : String} {xs : List String} {l : String} :
    targetHdrAt group (xs ++ [l]) xs.length ↔ rTrim l = hdrStr group := by
  have hg : (xs ++ [l]).getD xs.length "" = l := getD_append_len xs l [] ""
  constructor
  · rintro ⟨_, h2⟩
    rw [hg] at h2
    exact h2
  · intro h
    refine ⟨?_, ?_⟩
    · rw [List.length_append]; simp
    · rw [hg]; exact h

theorem targetHdrAt_oob {group : String} {lines : List String} {k : Nat}
    (h : lines.length ≤ k) : ¬ targetHdrAt group lines k :=
  fun hc => absurd hc.1 (by omega)

theorem keyLineAt_snoc_lt {key : String} {xs : List String} {l : String} {k : Nat}
    (h : k < xs.length) : keyLineAt key (xs ++ [l]) k ↔ keyLineAt key xs k := by
  have hg : (xs ++ [l]).getD k "" = xs.getD k "" := List.getD_append _ _ _ _ h
  constructor
  · rintro ⟨_, h2, h3⟩
    rw [hg] at h2 h3
    exact ⟨h, h2, h3⟩
  · rintro ⟨_, h2, h3⟩
    refine ⟨?_, ?_, ?_⟩
    · rw [List.length_append]; omega
    · rw [hg]; exact h2
    · rw [hg]; exact h3

theorem keyLineAt_snoc_len {key : String} {xs : List String} {l : String} :
    keyLineAt key (xs ++ [l]) xs.length ↔
      (isHeaderLine (rTrim l) = false ∧ rStartsWith (rTrim l) (key ++ "=") = true) := by
  have hg : (xs ++ [l]).getD xs.length "" = l := getD_append_len xs l [] ""
  constructor
  · rintro ⟨_, h2, h3⟩
    rw [hg] at h2 h3
    exact ⟨h2, h3⟩
  · rintro ⟨h2, h3⟩
    refine ⟨?_, ?_, ?_⟩
    · rw [List.length_append]; simp
    · rw [hg]; exact h2
    · rw [hg]; exact h3

theorem keyLineAt_oob {key : String} {lines : List String} {k : Nat}
    (h : lines.length ≤ k) : ¬ keyLineAt key lines k :=
  fun hc => absurd hc.1 (by omega)

theorem inSectionAt_snoc_le {group : String} {xs : List String} {l : String} {k : Nat}
    (h : k ≤ xs.length) : inSectionAt group (xs ++ [l]) k ↔ inSectionAt group xs k := by
  unfold inSectionAt
  rw [List.take_append_of_le_length h]

theorem keyHitAt_snoc_lt {group key : String} {xs : List String} {l : String} {k : Nat}
    (h : k < xs.length) : keyHitAt group key (xs ++ [l]) k ↔ keyHitAt group key xs k := by
  unfold keyHitAt
  rw [keyLineAt_snoc_lt h, inSectionAt_snoc_le (le_of_lt h)]

theorem keyHitAt_snoc_len {group key : String} {xs : List String} {l : String} :
    keyHitAt group key (xs ++ [l]) xs.length ↔
      ((isHeaderLine (rTrim l) = false ∧ rStartsWith (rTrim l) (key ++ "=") = true) ∧
        inGroupAfter group xs = true) := by
  unfold keyHitAt
  rw [keyLineAt_snoc_len]
  unfold inSectionAt
  rw [take_append_self]

theorem keyHitAt_oob {group key : String} {lines : List String} {k : Nat}
    (h : lines.length ≤ k) : ¬ keyHitAt group key lines k :=
  fun hc => keyLineAt_oob h hc.1

theorem lineValueAt_snoc_lt {key : String} {xs : List String} {l : String} {m : Nat}
    (h : m < xs.length) : lineValueAt key (xs ++ [l]) m = lineValueAt key xs m := by
  unfold lineValueAt
  rw [List.getD_append _ _ _ _ h]

theorem lineValueAt_snoc_len (key : String) (xs : List String) (l : String) :
    lineValueAt key (xs ++ [l]) xs.length = rDrop (rTrim l) (strLen (key ++ "=")) := by
  unfold lineValueAt
  rw [getD_append_len xs l [] ""]

theorem lastHdr_snoc_of_not {group : String} {xs : List String} {l : String}
    (hnot : ¬ targetHdrAt group (xs ++ [l]) xs.length) (j : Nat) :
    (targetHdrAt group xs j ∧ ∀ k, j < k → ¬ targetHdrAt group xs k) ↔
    (targetHdrAt group (xs ++ [l]) j ∧ ∀ k, j < k → ¬ targetHdrAt group (xs ++ [l]) k) := by
  constructor
  · rintro ⟨h1, h2⟩
    have hj : j < xs.length := h1.1
    refine ⟨(targetHdrAt_snoc_lt hj).2 h1, ?_⟩
    intro k hk hc
    rcases Nat.lt_trichotomy k xs.length with hlt | heq | hgt
    · exact h2 k hk ((targetHdrAt_snoc_lt hlt).1 hc)
    · rw [heq] at hc; exact hnot hc
    · exact targetHdrAt_oob (by rw [List.length_append]; simp; omega) hc
  · rintro ⟨h1, h2⟩
    have hjb : j < (xs ++ [l]).length := h1.1
    have hjn : j ≠ xs.length := fun he => hnot (he ▸ h1)
    have hj : j < xs.length := by rw [List.length_append] at hjb; simp at hjb; omega
    refine ⟨(targetHdrAt_snoc_lt hj).1 h1, ?_⟩
    intro k hk hc
    exact h2 k hk ((targetHdrAt_snoc_lt hc.1).2 hc)

theorem lastHit_snoc_of_not {group key : String} {xs : List String} {l : String}
    (hnot : ¬ keyHitAt group key (xs ++ [l]) xs.length) (m : Nat) :
    (keyHitAt group key xs m ∧ ∀ k, m < k → ¬ keyHitAt group key xs k) ↔
    (keyHitAt group key (xs ++ [l]) m ∧ ∀ k, m < k → ¬ keyHitAt group key (xs ++ [l]) k) := by
  constructor
  · rintro ⟨h1, h2⟩
    have hm : m < xs.length := h1.1.1
    refine ⟨(keyHitAt_snoc_lt hm).2 h1, ?_⟩
    intro k hk hc
    rcases Nat.lt_trichotomy k xs.length with hlt | heq | hgt
    · exact h2 k hk ((keyHitAt_snoc_lt hlt).1 hc)
    · rw [heq] at hc; exact hnot hc
    · exact keyHitAt_oob (by rw [List.length_append]; simp; omega) hc
  · rintro ⟨h1, h2⟩
    have hmb : m < (xs ++ [l]).length := h1.1.1
    have hmn : m ≠ xs.length := fun he => hnot (he ▸ h1)
    have hm : m < xs.length := by rw [List.length_append] at hmb; simp at hmb; omega
    refine ⟨(keyHitAt_snoc_lt hm).1 h1, ?_⟩
    intro k hk hc
    exact h2 k hk ((keyHitAt_snoc_lt hc.1.1).2 hc)

-- ===================================================================
-- Characterization of the scan result
-- ===================================================================

/-- The returned section-header index is exactly the last (most recently
seen) matching header line. -/
theorem locate_hdr_spec (group key : String) (lines : List String) (j : Nat) :
    (locate group key lines).hdrIdx = some j ↔
      (targetHdrAt group lines j ∧ ∀ k, j < k → ¬ targetHdrAt group lines k) := by
  induction lines using List.reverseRecOn generalizing j with
  | nil =>
    rw [locate_nil]
    constructor
    · intro h; cases h
    · rintro ⟨h1, _⟩
      exact absurd h1.1 (by simp)
  | append_singleton xs l ih =>
    rw [locate_snoc]
    unfold scanStep
    by_cases h1 : isHeaderLine (rTrim l) = true
    · rw [if_pos h1]
      by_cases h2 : rTrim l = hdrStr group
      · rw [if_pos h2]
        dsimp only
        constructor
        · intro h
          injection h with h
          rw [← h]
          refine ⟨targetHdrAt_snoc_len.2 h2, ?_⟩
          intro k hk
          exact targetHdrAt_oob (by rw [List.length_append]; simp; omega)
        · rintro ⟨ha, hlast⟩
          have hAtN : targetHdrAt group (xs ++ [l]) xs.length := targetHdrAt_snoc_len.2 h2
          have hjb : j < (xs ++ [l]).length := ha.1
          have hnlt : ¬ (j < xs.length) := fun hlt => hlast xs.length hlt hAtN
          have hje : j = xs.length := by
            rw [List.length_append] at hjb; simp at hjb; omega
          rw [hje]
      · rw [if_neg h2]
        dsimp only
        have hnot : ¬ targetHdrAt group (xs ++ [l]) xs.length :=
          fun hc => h2 (targetHdrAt_snoc_len.1 hc)
        rw [ih j]
        exact lastHdr_snoc_of_not hnot j
    · rw [if_neg h1]
      have hnot : ¬ targetHdrAt group (xs ++ [l]) xs.length := by
        intro hc
        exact h1 (header_of_trim_eq (targetHdrAt_snoc_len.1 hc))
      have hred : ((if (inGroupAfter group xs && rStartsWith (rTrim l) (key ++ "=")) = true
          then (inGroupAfter group xs,
            { hdrIdx := (locate group key xs).hdrIdx, valIdx := some xs.length,
              value := rDrop (rTrim l) (strLen (key ++ "=")) })
          else (inGroupAfter group xs, locate group key xs)).2).hdrIdx =
            (locate group key xs).hdrIdx := by
        split <;> rfl
      rw [hred, ih j]
      exact lastHdr_snoc_of_not hnot j

/-- The returned value-line index is exactly the last `key=` line inside the
target section, and the returned value is that line's text after `key=`. -/
theorem locate_val_spec (group key : String) (lines : List String) (m : Nat) :
    ((locate group key lines).valIdx = some m ↔
      (keyHitAt group key lines m ∧ ∀ k, m < k → ¬ keyHitAt group key lines k))
    ∧ ((locate group key lines).valIdx = some m →
        (locate group key lines).value = lineValueAt key lines m) := by
  induction lines using List.reverseRecOn generalizing m with
  | nil =>
    rw [locate_nil]
    constructor
    · constructor
      · intro h; cases h
      · rintro ⟨h1, _⟩
        exact absurd h1.1.1 (by simp)
    · intro h; cases h
  | append_singleton xs l ih =>
    rw [locate_snoc]
    unfold scanStep
    by_cases h1 : isHeaderLine (rTrim l) = true
    · rw [if_pos h1]
      have hnot : ¬ keyHitAt group key (xs ++ [l]) xs.length := by
        intro hc
        have := (keyHitAt_snoc_len.1 hc).1.1
        rw [h1] at this
        cases this
      have hval : ∀ m2, (locate group key xs).valIdx = some m2 → m2 < xs.length :=
        fun m2 hm2 => (((ih m2).1.1 hm2).1).1.1
      by_cases h2 : rTrim l = hdrStr group
      · rw [if_pos h2]
        dsimp only
        constructor
        · rw [(ih m).1]
          exact lastHit_snoc_of_not hnot m
        · intro hm
          rw [(ih m).2 hm, lineValueAt_snoc_lt (hval m hm)]
      · rw [if_neg h2]
        dsimp only
        constructor
        · rw [(ih m).1]
          exact lastHit_snoc_of_not hnot m
        · intro hm
          rw [(ih m).2 hm, lineValueAt_snoc_lt (hval m hm)]
    · rw [if_neg h1]
      by_cases h3 : (inGroupAfter group xs && rStartsWith (rTrim l) (key ++ "=")) = true
      · rw [if_pos h3]
        dsimp only
        rw [Bool.and_eq_true] at h3
        have hH : isHeaderLine (rTrim l) = false := by
          cases hb : isHeaderLine (rTrim l)
          · rfl
          · exact absurd hb h1
        have hsatN : keyHitAt group key (xs ++ [l]) xs.length :=
          keyHitAt_snoc_len.2 ⟨⟨hH, h3.2⟩, h3.1⟩
        constructor
        · constructor
          · intro h
            injection h with h
            rw [← h]
            refine ⟨hsatN, ?_⟩
            intro k hk
            exact keyHitAt_oob (by rw [List.length_append]; simp; omega)
          · rintro ⟨ha, hlast⟩
            have hmb : m < (xs ++ [l]).length := ha.1.1
            have hnlt : ¬ (m < xs.length) := fun hlt => hlast xs.length hlt hsatN
            have hme : m = xs.length := by
              rw [List.length_append] at hmb; simp at hmb; omega
            rw [hme]
        · intro hm
          injection hm with hm
          rw [← hm, lineValueAt_snoc_len]
      · rw [if_neg h3]
        dsimp only
        have hnot : ¬ keyHitAt group key (xs ++ [l]) xs.length := by
          intro hc
          obtain ⟨⟨_, hs⟩, hg⟩ := keyHitAt_snoc_len.1 hc
          exact h3 (by rw [Bool.and_eq_true]; exact ⟨hg, hs⟩)
        have hval : ∀ m2, (locate group key xs).valIdx = some m2 → m2 < xs.length :=
          fun m2 hm2 => (((ih m2).1.1 hm2).1).1.1
        constructor
        · rw [(ih m).1]
          exact lastHit_snoc_of_not hnot m
        · intro hm
          rw [(ih m).2 hm, lineValueAt_snoc_lt (hval m hm)]

theorem locate_hdr_of_exists (group key : String) (lines : List String) {j : Nat}
    (hj : targetHdrAt group lines j) :
    ∃ q, (locate group key lines).hdrIdx = some q ∧ targetHdrAt group lines q ∧
      j ≤ q ∧ ∀ k, q < k → ¬ targetHdrAt group lines k := by
  have hjle : j ≤ lines.length := le_of_lt hj.1
  have hq : targetHdrAt group lines (Nat.findGreatest (targetHdrAt group lines) lines.length) :=
    Nat.findGreatest_spec hjle hj
  have hge : j ≤ Nat.findGreatest (targetHdrAt group lines) lines.length :=
    Nat.le_findGreatest hjle hj
  have hlast : ∀ k, Nat.findGreatest (targetHdrAt group lines) lines.length < k →
      ¬ targetHdrAt group lines k := by
    intro k hk hPk
    by_cases hkb : k ≤ lines.length
    · exact Nat.findGreatest_is_greatest hk hkb hPk
    · exact absurd hPk.1 (by omega)
  exact ⟨_, (locate_hdr_spec group key lines _).2 ⟨hq, hlast⟩, hq, hge, hlast⟩

theorem locate_val_of_exists (group key : String) (lines : List String) {m : Nat}
    (hm : keyHitAt group key lines m) :
    ∃ p, (locate group key lines).valIdx = some p ∧ keyHitAt group key lines p ∧
      m ≤ p ∧ (∀ k, p < k → ¬ keyHitAt group key lines k) ∧
      (locate group key lines).value = lineValueAt key lines p := by
  have hmle : m ≤ lines.length := le_of_lt hm.1.1
  have hq : keyHitAt group key lines (Nat.findGreatest (keyHitAt group key lines) lines.length) :=
    Nat.findGreatest_spec hmle hm
  have hge : m ≤ Nat.findGreatest (keyHitAt group key lines) lines.length :=
    Nat.le_findGreatest hmle hm
  have hlast : ∀ k, Nat.findGreatest (keyHitAt group key lines) lines.length < k →
      ¬ keyHitAt group key lines k := by
    intro k hk hPk
    by_cases hkb : k ≤ lines.length
    · exact Nat.findGreatest_is_greatest hk hkb hPk
    · exact absurd hPk.1.1 (by omega)
  have hsome : (locate group key lines).valIdx = some _ :=
    (locate_val_spec group key lines _).1.2 ⟨hq, hlast⟩
  exact ⟨_, hsome, hq, hge, hlast, (locate_val_spec group key lines _).2 hsome⟩

theorem locate_hdr_none_iff (group key : String) (lines : List String) :
    (locate group key lines).hdrIdx = none ↔ ∀ j, ¬ targetHdrAt group lines j := by
  constructor
  · intro h j hj
    obtain ⟨q, hq, _⟩ := locate_hdr_of_exists group key lines hj
    rw [h] at hq
    cases hq
  · intro hall
    cases he : (locate group key lines).hdrIdx with
    | none => rfl
    | some j => exact absurd ((locate_hdr_spec group key lines j).1 he).1 (hall j)

theorem locate_val_none_iff (group key : String) (lines : List String) :
    (locate group key lines).valIdx = none ↔ ∀ m, ¬ keyHitAt group key lines m := by
  constructor
  · intro h m hm
    obtain ⟨p, hp, _⟩ := locate_val_of_exists group key lines hm
    rw [h] at hp
    cases hp
  · intro hall
    cases he : (locate group key lines).valIdx with
    | none => rfl
    | some m => exact absurd (((locate_val_spec group key lines m).1.1 he).1) (hall m)

-- ===================================================================
-- Helper lemmas for documents of shape `A ++ b :: B`
-- ===================================================================

theorem getD_append_right2 {α : Type} (A B : List α) (j : Nat) (d : α) :
    (A ++ B).getD (A.length + j) d = B.getD j d := by
  induction A with
  | nil => simp
  | cons x xs ih =>
    have : (x :: xs).length + j = (xs.length + j) + 1 := by simp; omega
    rw [this]
    simp only [List.cons_append, List.getD_cons_succ]
    exact ih

theorem getD_drop {α : Type} (l : List α) (n k : Nat) (d : α) :
    (l.drop n).getD k d = l.getD (n + k) d := by
  induction l generalizing n with
  | nil => simp
  | cons x xs ih =>
    cases n with
    | zero => simp
    | succ n =>
      have : (n + 1) + k = (n + k) + 1 := by omega
      rw [this]
      simp only [List.drop_succ_cons, List.getD_cons_succ]
      exact ih n

theorem drop_eq_getD_cons {α : Type} (l : List α) (n : Nat) (d : α) (h : n < l.length) :
    l.drop n = l.getD n d :: l.drop (n + 1) := by
  induction l generalizing n with
  | nil => simp at h
  | cons x xs ih =>
    cases n with
    | zero => simp
    | succ n =>
      have := ih n (by simpa using Nat.lt_of_succ_lt_succ h)
      simpa using this

theorem mid_length {α : Type} (A : List α) (b : α) (B : List α) :
    (A ++ b :: B).length = A.length + B.length + 1 := by
  simp; omega

theorem mid_getD_lt {α : Type} (A : List α) (b : α) (B : List α) {k : Nat} (d : α)
    (h : k < A.length) : (A ++ b :: B).getD k d = A.getD k d :=
  List.getD_append _ _ _ _ h

theorem mid_getD_len {α : Type} (A : List α) (b : α) (B : List α) (d : α) :
    (A ++ b :: B).getD A.length d = b :=
  getD_append_len A b B d

theorem mid_getD_gt {α : Type} (A : List α) (b : α) (B : List α) (j : Nat) (d : α) :
    (A ++ b :: B).getD (A.length + (j + 1)) d = B.getD j d :=
  getD_append_gt A b B j d

theorem mid_take_le {α : Type} (A : List α) (b : α) (B : List α) {k : Nat}
    (h : k ≤ A.length) : (A ++ b :: B).take k = A.take k :=
  List.take_append_of_le_length h

theorem mid_take_gt {α : Type} (A : List α) (b : α) (B : List α) (j : Nat) :
    (A ++ b :: B).take (A.length + (j + 1)) = A ++ b :: B.take j := by
  rw [List.take_append_eq_append_take]
  have h1 : A.take (A.length + (j + 1)) = A := List.take_of_length_le (by omega)
  have h2 : A.length + (j + 1) - A.length = j + 1 := by omega
  rw [h1, h2]
  rfl

theorem groupStep_nonheader {group : String} {b : String}
    (hb : isHeaderLine (rTrim b) = false) (z : Bool) : groupStep group z b = z := by
  simp [groupStep, hb]

theorem groupStep_target {group : String} {b : String}
    (hb : rTrim b = hdrStr group) (z : Bool) : groupStep group z b = true := by
  simp [groupStep, hb, isHeaderLine_hdrStr]

theorem inGroupAfter_mid {group : String} (A : List String) {b : String} (B : List String)
    (hb : isHeaderLine (rTrim b) = false) :
    inGroupAfter group (A ++ b :: B) = inGroupAfter group (A ++ B) := by
  unfold inGroupAfter
  rw [show A ++ b :: B = A ++ [b] ++ B by simp, inGroupFrom_append, inGroupFrom_append,
    inGroupFrom_append]
  rw [inGroupFrom_cons, inGroupFrom_nil, groupStep_nonheader hb]

-- ===================================================================
-- Idempotence of the upsert
-- ===================================================================

theorem upsert_reduce_replace (group key : String) (lines : List String) (v : String)
    {h0 p : Nat} (hh : (locate group key lines).hdrIdx = some h0)
    (hv : (locate group key lines).valIdx = some p) :
    upsert group key lines v = setAt p (key ++ "=" ++ v) lines := by
  unfold upsert
  simp only [hh, hv]

theorem upsert_reduce_insert (group key : String) (lines : List String) (v : String)
    {h0 : Nat} (hh : (locate group key lines).hdrIdx = some h0)
    (hv : (locate group key lines).valIdx = none) :
    upsert group key lines v = insertAt (h0 + 1) (key ++ "=" ++ v) lines := by
  unfold upsert
  simp only [hh, hv]

theorem upsert_reduce_append (group key : String) (lines : List String) (v : String)
    (hh : (locate group key lines).hdrIdx = none) :
    upsert group key lines v =
      (if lines.getLastD "" ≠ "" then lines ++ [""] else lines) ++
        [hdrStr group, key ++ "=" ++ v] := by
  unfold upsert
  simp only [hh]

theorem upsert_idem_replace (group key : String) (hk : goodKey key) (lines : List String)
    (v : String) {h0 p : Nat} (hh : (locate group key lines).hdrIdx = some h0)
    (hv : (locate group key lines).valIdx = some p) :
    upsert group key (upsert group key lines v) v = upsert group key lines v := by
  have hNH := keyline_not_header key v hk
  have hSW := keyline_starts key v hk
  obtain ⟨hsatp, hlastp⟩ := (locate_val_spec group key lines p).1.1 hv
  have hp : p < lines.length := hsatp.1.1
  have hold_nh : isHeaderLine (rTrim (lines.getD p "")) = false := hsatp.1.2.1
  have hout : upsert group key lines v =
      lines.take p ++ (key ++ "=" ++ v) :: lines.drop (p + 1) :=
    upsert_reduce_replace group key lines v hh hv
  set nl : String := key ++ "=" ++ v with hnl
  set A := lines.take p with hAdef
  set B := lines.drop (p + 1) with hBdef
  have hA : A.length = p := by
    rw [hAdef, List.length_take]; omega
  have hlines : lines = A ++ lines.getD p "" :: B := by
    rw [hAdef, hBdef]
    conv_lhs => rw [← List.take_append_drop p lines]
    rw [drop_eq_getD_cons lines p "" hp]
  have hlen : (A ++ nl :: B).length = lines.length := by
    rw [mid_length]
    conv_rhs => rw [hlines]
    rw [mid_length]
  have hsatp_out : keyHitAt group key (A ++ nl :: B) p := by
    refine ⟨⟨?_, ?_, ?_⟩, ?_⟩
    · rw [hlen]; exact hp
    · rw [← hA, mid_getD_len]; exact hNH
    · rw [← hA, mid_getD_len]; exact hSW
    · show inGroupAfter group ((A ++ nl :: B).take p) = true
      rw [← hA, take_append_self]
      exact hsatp.2
  have hlast_out : ∀ k, p < k → ¬ keyHitAt group key (A ++ nl :: B) k := by
    intro k hk2 hc
    by_cases hkb : k < lines.length
    · obtain ⟨j, hj⟩ : ∃ j, k = A.length + (j + 1) := ⟨k - p - 1, by omega⟩
      have hg : (A ++ nl :: B).getD k "" = lines.getD k "" := by
        rw [hj, mid_getD_gt, hBdef, getD_drop]
        congr 1
        omega
      have htake : inGroupAfter group ((A ++ nl :: B).take k) =
          inGroupAfter group (lines.take k) := by
        conv_rhs => rw [hlines]
        rw [hj, mid_take_gt, mid_take_gt]
        rw [inGroupAfter_mid A (B.take j) hNH, inGroupAfter_mid A (B.take j) hold_nh]
      refine hlastp k hk2 ⟨⟨hkb, ?_, ?_⟩, ?_⟩
      · rw [← hg]; exact hc.1.2.1
      · rw [← hg]; exact hc.1.2.2
      · show inGroupAfter group (lines.take k) = true
        rw [← htake]; exact hc.2
    · exact keyHitAt_oob (by rw [hlen]; omega) hc
  have hvout : (locate group key (A ++ nl :: B)).valIdx = some p :=
    (locate_val_spec group key (A ++ nl :: B) p).1.2 ⟨hsatp_out, hlast_out⟩
  obtain ⟨hsat_h0, _⟩ := (locate_hdr_spec group key lines h0).1 hh
  have hne : h0 ≠ p := by
    intro he
    rw [he] at hsat_h0
    rw [header_of_trim_eq hsat_h0.2] at hold_nh
    cases hold_nh
  have hhdr_out : targetHdrAt group (A ++ nl :: B) h0 := by
    refine ⟨by rw [hlen]; exact hsat_h0.1, ?_⟩
    have hg : (A ++ nl :: B).getD h0 "" = lines.getD h0 "" := by
      rcases Nat.lt_or_ge h0 p with hlt | hge
      · rw [mid_getD_lt A nl B "" (by omega), hAdef, getD_take lines p h0 "" hlt]
      · have hgt : p < h0 := by omega
        obtain ⟨j, hj⟩ : ∃ j, h0 = A.length + (j + 1) := ⟨h0 - p - 1, by omega⟩
        rw [hj, mid_getD_gt, hBdef, getD_drop]
        congr 1
        omega
    rw [hg]; exact hsat_h0.2
  obtain ⟨q, hq, _⟩ := locate_hdr_of_exists group key (A ++ nl :: B) hhdr_out
  rw [hout]
  rw [upsert_reduce_replace group key (A ++ nl :: B) v hq hvout]
  apply setAt_self (A ++ nl :: B) p nl ""
  · rw [hlen]; exact hp
  · rw [← hA, mid_getD_len]

theorem upsert_idem_insert (group key : String) (hk : goodKey key) (lines : List String)
    (v : String) {h0 : Nat} (hh : (locate group key lines).hdrIdx = some h0)
    (hv : (locate group key lines).valIdx = none) :
    upsert group key (upsert group key lines v) v = upsert group key lines v := by
  have hNH := keyline_not_header key v hk
  have hSW := keyline_starts key v hk
  obtain ⟨hsat_h0, _⟩ := (locate_hdr_spec group key lines h0).1 hh
  have hh0 : h0 < lines.length := hsat_h0.1
  have hnone := (locate_val_none_iff group key lines).1 hv
  have hout : upsert group key lines v =
      lines.take (h0 + 1) ++ (key ++ "=" ++ v) :: lines.drop (h0 + 1) :=
    upsert_reduce_insert group key lines v hh hv
  set nl : String := key ++ "=" ++ v with hnl
  set A := lines.take (h0 + 1) with hAdef
  set B := lines.drop (h0 + 1) with hBdef
  have hA : A.length = h0 + 1 := by
    rw [hAdef, List.length_take]; omega
  have hAB : lines = A ++ B := (List.take_append_drop _ _).symm
  have hlen : (A ++ nl :: B).length = lines.length + 1 := by
    rw [mid_length]
    conv_rhs => rw [hAB]
    rw [List.length_append]
  have hAgroup : inGroupAfter group A = true := by
    rw [hAdef, take_succ_getD lines h0 "" hh0, inGroupAfter_snoc]
    exact groupStep_target hsat_h0.2 _
  have hsat_out : keyHitAt group key (A ++ nl :: B) (h0 + 1) := by
    refine ⟨⟨?_, ?_, ?_⟩, ?_⟩
    · rw [hlen]; omega
    · rw [← hA, mid_getD_len]; exact hNH
    · rw [← hA, mid_getD_len]; exact hSW
    · show inGroupAfter group ((A ++ nl :: B).take (h0 + 1)) = true
      rw [← hA, take_append_self]
      exact hAgroup
  have hlast_out : ∀ k, h0 + 1 < k → ¬ keyHitAt group key (A ++ nl :: B) k := by
    intro k hk2 hc
    by_cases hkb : k < lines.length + 1
    · obtain ⟨j, hj⟩ : ∃ j, k = A.length + (j + 1) := ⟨k - h0 - 2, by omega⟩
      have hg : (A ++ nl :: B).getD k "" = lines.getD (A.length + j) "" := by
        rw [hj, mid_getD_gt]
        conv_rhs => rw [hAB]
        rw [getD_append_right2]
      have harith : A.length + j - A.length = j := by omega
      have htake : inGroupAfter group ((A ++ nl :: B).take k) =
          inGroupAfter group (lines.take (A.length + j)) := by
        rw [hj, mid_take_gt, inGroupAfter_mid A (B.take j) hNH]
        conv_rhs => rw [hAB]
        rw [List.take_append_eq_append_take,
          List.take_of_length_le (show A.length ≤ A.length + j by omega), harith]
      apply hnone (A.length + j)
      refine ⟨⟨?_, ?_, ?_⟩, ?_⟩
      · omega
      · rw [← hg]; exact hc.1.2.1
      · rw [← hg]; exact hc.1.2.2
      · show inGroupAfter group (lines.take (A.length + j)) = true
        rw [← htake]; exact hc.2
    · exact keyHitAt_oob (by rw [hlen]; omega) hc
  have hvout : (locate group key (A ++ nl :: B)).valIdx = some (h0 + 1) :=
    (locate_val_spec group key (A ++ nl :: B) (h0 + 1)).1.2 ⟨hsat_out, hlast_out⟩
  have hhdr_out : targetHdrAt group (A ++ nl :: B) h0 := by
    refine ⟨by rw [hlen]; omega, ?_⟩
    have hg : (A ++ nl :: B).getD h0 "" = lines.getD h0 "" := by
      rw [mid_getD_lt A nl B "" (by omega), hAdef, getD_take lines (h0 + 1) h0 "" (by omega)]
    rw [hg]
    exact hsat_h0.2
  obtain ⟨q, hq, _⟩ := locate_hdr_of_exists group key (A ++ nl :: B) hhdr_out
  rw [hout, upsert_reduce_replace group key (A ++ nl :: B) v hq hvout]
  apply setAt_self (A ++ nl :: B) (h0 + 1) nl ""
  · rw [hlen]; omega
  · rw [← hA, mid_getD_len]

theorem upsert_idem_append (group key : String) (hk : goodKey key) (lines : List String)
    (v : String) (hh : (locate group key lines).hdrIdx = none) :
    upsert group key (upsert group key lines v) v = upsert group key lines v := by
  have hNH := keyline_not_header key v hk
  have hSW := keyline_starts key v hk
  set nl : String := key ++ "=" ++ v with hnl
  set C := (if lines.getLastD "" ≠ "" then lines ++ [""] else lines) with hCdef
  have houtC : upsert group key lines v = C ++ hdrStr group :: nl :: [] :=
    upsert_reduce_append group key lines v hh
  have hlen : (C ++ hdrStr group :: nl :: []).length = C.length + 2 := by
    rw [mid_length]
    simp
  have hg1 : (C ++ hdrStr group :: nl :: []).getD (C.length + 1) "" = nl := by
    have := mid_getD_gt C (hdrStr group) (nl :: []) 0 ""
    simpa using this
  have hsat_out : keyHitAt group key (C ++ hdrStr group :: nl :: []) (C.length + 1) := by
    refine ⟨⟨?_, ?_, ?_⟩, ?_⟩
    · rw [hlen]; omega
    · rw [hg1]; exact hNH
    · rw [hg1]; exact hSW
    · show inGroupAfter group ((C ++ hdrStr group :: nl :: []).take (C.length + 1)) = true
      have ht : (C ++ hdrStr group :: nl :: []).take (C.length + 1) = C ++ [hdrStr group] := by
        have := mid_take_gt C (hdrStr group) (nl :: []) 0
        simpa using this
      rw [ht, inGroupAfter_snoc]
      exact groupStep_target (rTrim_hdrStr group) _
  have hlast_out : ∀ k, C.length + 1 < k →
      ¬ keyHitAt group key (C ++ hdrStr group :: nl :: []) k := by
    intro k hk2
    exact keyHitAt_oob (by rw [hlen]; omega)
  have hvout : (locate group key (C ++ hdrStr group :: nl :: [])).valIdx =
      some (C.length + 1) :=
    (locate_val_spec group key _ (C.length + 1)).1.2 ⟨hsat_out, hlast_out⟩
  have hhdr_out : targetHdrAt group (C ++ hdrStr group :: nl :: []) C.length := by
    refine ⟨by rw [hlen]; omega, ?_⟩
    rw [mid_getD_len]
    exact rTrim_hdrStr group
  obtain ⟨q, hq, _⟩ := locate_hdr_of_exists group key _ hhdr_out
  rw [houtC, upsert_reduce_replace group key (C ++ hdrStr group :: nl :: []) v hq hvout]
  apply setAt_self (C ++ hdrStr group :: nl :: []) (C.length + 1) nl ""
  · rw [hlen]; omega
  · exact hg1

/-- Idempotence of the grouped-config upsert, for any section name and any key
whose spelling does not start with whitespace or `[` (true of both keys the
program writes). -/
theorem upsert_idempotent (group key : String) (hk : goodKey key) (lines : List String)
    (v : String) :
    upsert group key (upsert group key lines v) v = upsert group key lines v := by
  cases hh : (locate group key lines).hdrIdx with
  | some h0 =>
    cases hv : (locate group key lines).valIdx with
    | some p => exact upsert_idem_replace group key hk lines v hh hv
    | none => exact upsert_idem_insert group key hk lines v hh hv
  | none => exact upsert_idem_append group key hk lines v hh

-- ===================================================================
-- Round-trip of parse_classes / join_classes
-- ===================================================================

theorem trimLeftChars_all (cs : List Char) (h : ∀ c ∈ cs, isWhitespaceChar c = false) :
    trimLeftChars cs = cs := by
  cases cs with
  | nil => rfl
  | cons c cs2 => exact trimLeftChars_of_head c cs2 (h c (List.mem_cons_self c cs2))

theorem trimChars_all (cs : List Char) (h : ∀ c ∈ cs, isWhitespaceChar c = false) :
    trimChars cs = cs := by
  unfold trimChars
  rw [trimLeftChars_all cs h,
    trimLeftChars_all cs.reverse (fun c hc => h c (List.mem_reverse.1 hc)),
    List.reverse_reverse]

theorem ws_isSep {c : Char} (h : isWhitespaceChar c = true) : isSepChar c = true := by
  unfold isSepChar
  rw [h]
  simp

theorem sepfree_wsfree {cs : List Char} (h : ∀ c ∈ cs, isSepChar c = false) :
    ∀ c ∈ cs, isWhitespaceChar c = false := by
  intro c hc
  cases hw : isWhitespaceChar c
  · rfl
  · have hcc := h c hc
    rw [ws_isSep hw] at hcc
    cases hcc

theorem joinData_cons2 (sep x y : List Char) (ys : List (List Char)) :
    joinData sep (x :: y :: ys) = x ++ sep ++ joinData sep (y :: ys) := rfl

theorem split_join (pieces : List (List Char)) (hne : pieces ≠ [])
    (h : ∀ q ∈ pieces, ∀ c ∈ q, isSepChar c = false) :
    splitChars isSepChar (joinData [';'] pieces) = pieces := by
  induction pieces with
  | nil => cases hne rfl
  | cons x xs ih =>
    cases xs with
    | nil =>
      show splitChars isSepChar x = [x]
      exact splitChars_sepfree _ x (h x (List.mem_cons_self x []))
    | cons y ys =>
      have hx : ∀ c ∈ x, isSepChar c = false := h x (List.mem_cons_self x (y :: ys))
      have hrec := ih (by simp) fun q hq c hc => h q (List.mem_cons_of_mem x hq) c hc
      rw [joinData_cons2]
      have hassoc : x ++ [';'] ++ joinData [';'] (y :: ys) =
          x ++ ';' :: joinData [';'] (y :: ys) := by simp
      rw [hassoc, splitChars_append_sepfree _ x _ hx,
        splitChars_sep_cons _ ';' _ (by decide), hrec]
      simp

theorem map_trim_id (l : List String)
    (h : ∀ s ∈ l, ∀ c ∈ s.data, isWhitespaceChar c = false) :
    (l.map fun s => (⟨trimChars s.data⟩ : String)) = l := by
  induction l with
  | nil => rfl
  | cons x xs ih =>
    have hx : trimChars x.data = x.data := trimChars_all x.data (h x (List.mem_cons_self x xs))
    have ihh := ih fun s hs => h s (List.mem_cons_of_mem x hs)
    simp only [List.map_cons, ihh]
    congr 1
    apply str_data_inj
    exact hx

/-- Round-trip: parsing the serialized class list returns the original list,
whenever every entry is non-empty and free of separator characters. -/
theorem parse_join_roundtrip (l : List String)
    (h : ∀ s ∈ l, s ≠ "" ∧ ∀ c ∈ s.data, isSepChar c = false) :
    parse_classes (join_classes l) = l := by
  cases l with
  | nil => rfl
  | cons x xs =>
    show (((splitChars isSepChar (joinData [';'] ((x :: xs).map String.data))).map
        fun cs => (⟨trimChars cs⟩ : String)).filter fun s => s != "") = x :: xs
    rw [split_join ((x :: xs).map String.data) (by simp) ?hsf]
    case hsf =>
      intro q hq c hc
      obtain ⟨s, hs, rfl⟩ := List.mem_map.1 hq
      exact (h s hs).2 c hc
    rw [List.map_map]
    have hmap : ((x :: xs).map fun s => (⟨trimChars s.data⟩ : String)) = x :: xs :=
      map_trim_id (x :: xs) fun s hs => sepfree_wsfree (h s hs).2
    have hcomp : ((fun cs => (⟨trimChars cs⟩ : String)) ∘ String.data) =
        fun s => (⟨trimChars s.data⟩ : String) := rfl
    rw [hcomp, hmap]
    rw [List.filter_eq_self.2]
    intro s hs
    have := (h s hs).1
    simpa using this

-- ===================================================================
-- Class-list invariant helpers, goodKey discharge, reload failure
-- ===================================================================

theorem goodKey_of_head (key : String) (c0 : Char) (hc0 : key.data.head? = some c0)
    (h1 : isWhitespaceChar c0 = false) (h2 : c0 ≠ '[') : goodKey key := by
  intro c hc
  rw [hc0] at hc
  injection hc with h
  rw [← h]
  exact ⟨h1, h2⟩

theorem add_class_noDup (classes : List String) (arg : String) (h : noDupKeys classes) :
    noDupKeys (add_class_list classes arg) := by
  unfold add_class_list
  dsimp only
  split
  · exact h
  · split
    · exact h
    · next hany =>
      unfold noDupKeys
      rw [List.map_append, List.nodup_append]
      refine ⟨h, by simp, ?_⟩
      intro a ha hb
      simp only [List.map_cons, List.map_nil, List.mem_singleton] at hb
      obtain ⟨c, hc, hck⟩ := List.mem_map.1 ha
      apply hany
      rw [List.any_eq_true]
      refine ⟨c, hc, ?_⟩
      rw [beq_iff_eq, hck, hb]

theorem remove_class_noDup (classes : List String) (arg : String) (h : noDupKeys classes) :
    noDupKeys (remove_class_list classes arg) := by
  unfold remove_class_list
  dsimp only
  split
  · exact h
  · unfold noDupKeys at h ⊢
    exact h.sublist (List.Sublist.map class_key (List.filter_sublist classes))

theorem reload_try_all_fail (rwo : ReloadWorld) (ps : List String)
    (h : ∀ q ∈ ps, (rwo.haveCmd q && rwo.runOk q) = false) :
    reload_try rwo ps = .failure := by
  induction ps with
  | nil => rfl
  | cons p ps ih =>
    unfold reload_try
    rw [h p (List.mem_cons_self p ps)]
    exact ih fun q hq => h q (List.mem_cons_of_mem p hq)


-- ===================================================================
-- Congruence for the session detector (it only reads haveLoginctl,
-- listSessions and showSession)
-- ===================================================================

theorem detect_row_congr {w1 w2 : SessionWorld} (hss : w1.showSession = w2.showSession)
    (uid : Nat) (sid : String) : detect_row w1 uid sid = detect_row w2 uid sid := by
  have hsp : ∀ p, showProp w1 sid p = showProp w2 sid p := by
    intro p
    unfold showProp
    rw [hss]
  unfold detect_row
  simp only [hsp]

theorem detect_lines_cons_none (w : SessionWorld) (uid : Nat) (l : String)
    (ls : List String) (h : firstToken l = none) :
    detect_lines w uid (l :: ls) = detect_lines w uid ls := by
  conv_lhs => rw [detect_lines]
  rw [h]

theorem detect_lines_cons_some (w : SessionWorld) (uid : Nat) (l : String)
    (ls : List String) (sid : String) (h : firstToken l = some sid) :
    detect_lines w uid (l :: ls) =
      (match detect_row w uid sid with
       | (some r, q) => (some r, q)
       | (none, q) => ((detect_lines w uid ls).1, q ++ (detect_lines w uid ls).2)) := by
  conv_lhs => rw [detect_lines]
  rw [h]

theorem detect_lines_congr {w1 w2 : SessionWorld} (hss : w1.showSession = w2.showSession)
    (uid : Nat) (ls : List String) : detect_lines w1 uid ls = detect_lines w2 uid ls := by
  induction ls with
  | nil => rfl
  | cons l ls ih =>
    cases hft : firstToken l with
    | none =>
      rw [detect_lines_cons_none w1 uid l ls hft, detect_lines_cons_none w2 uid l ls hft, ih]
    | some sid =>
      rw [detect_lines_cons_some w1 uid l ls sid hft,
        detect_lines_cons_some w2 uid l ls sid hft, detect_row_congr hss uid sid, ih]

theorem detect_session_env_congr {w1 w2 : SessionWorld}
    (hss : w1.showSession = w2.showSession) (hhl : w1.haveLoginctl = w2.haveLoginctl)
    (hls : w1.listSessions = w2.listSessions) (uid : Nat) :
    detect_session_env_for_uid w1 uid = detect_session_env_for_uid w2 uid := by
  unfold detect_session_env_for_uid
  rw [hhl, hls]
  cases hls2 : w2.listSessions with
  | error e => rfl
  | ok pr =>
    obtain ⟨succ, outText⟩ := pr
    cases succ
    · rfl
    · simp only [detect_lines_congr hss uid (rlines outText)]

-- ===================================================================
-- Claims
-- ===================================================================

/-- Claim C1, counterexample: with `--uid 1000` (alice) and `--user bob` both
supplied to the same invocation and resolving to different accounts, the
resolved target is bob's account (uid 1001), not the account with the
explicit uid 1000 — the explicit username wins, refuting the claimed
uid-over-username precedence. -/
theorem c1_counterexample :
    determine_target (parse_passwd passwdTwo) (some 1000) (some "bob") false none
        ⟨0, "root", "/root"⟩ = some ⟨1001, "bob", "/home/bob"⟩ ∧
    find_user_by_uid (parse_passwd passwdTwo) 1000 =
        some ⟨1000, "alice", "/home/alice"⟩ ∧
    (⟨1001, "bob", "/home/bob"⟩ : Target) ≠ ⟨1000, "alice", "/home/alice"⟩ :=
  ⟨rfl, rfl, by decide⟩

/-- Claim C1 (amended): the identity resolver's precedence is explicit
username, then explicit uid, then "auto", then the current process. -/
theorem c1_username_beats_uid (passwd : List (String × Nat × String)) (u : Nat)
    (name : String) (auto : Bool) (autoUid : Option Nat) (cur : Target) :
    determine_target passwd (some u) (some name) auto autoUid cur =
        find_user_by_name passwd name ∧
    determine_target passwd (some u) none auto autoUid cur =
        find_user_by_uid passwd u ∧
    determine_target passwd none none true autoUid cur =
        autoUid.bind (find_user_by_uid passwd) ∧
    determine_target passwd none none false autoUid cur = some cur := by
  refine ⟨rfl, rfl, ?_, rfl⟩
  cases autoUid <;> rfl

/-- Claim C2, counterexample: `set-classes("a;b,b; c")` stores the value
`a;b;b;c`, not `a;b;c` — the handler does not collapse duplicates, and the
parsed list indeed has two entries with the same normalized key. -/
theorem c2_counterexample :
    (extract_script_config
        (upsert GROUP_NAME KEY_NAME [] (join_classes (parse_classes "a;b,b; c")))).value =
      "a;b;b;c" ∧
    ("a;b;b;c" : String) ≠ "a;b;c" ∧
    ¬ noDupKeys (parse_classes "a;b,b; c") :=
  ⟨rfl, by decide, by decide⟩

/-- Claim C2 (amended): `set-classes` treats whitespace, comma and semicolon
as separators and preserves order and spelling but does not deduplicate, so
`set-classes("a;b,b; c")` stores `a;b;b;c`; the no-duplicate-normalized-key
invariant is preserved by add-class, remove-class and clear, but not by
set-classes on duplicate input. -/
theorem c2_set_classes_no_dedup :
    (extract_script_config
        (upsert GROUP_NAME KEY_NAME [] (join_classes (parse_classes "a;b,b; c")))).value =
      "a;b;b;c" ∧
    (∀ (classes : List String) (arg : String), noDupKeys classes →
      noDupKeys (add_class_list classes arg)) ∧
    (∀ (classes : List String) (arg : String), noDupKeys classes →
      noDupKeys (remove_class_list classes arg)) ∧
    noDupKeys [] := by
  refine ⟨rfl, ?_, ?_, by decide⟩
  · intro classes arg h
    exact add_class_noDup classes arg h
  · intro classes arg h
    exact remove_class_noDup classes arg h

/-- Witness for C2 (amended) at a concrete class list. -/
theorem c2_set_classes_no_dedup_witness :
    noDupKeys ["Chrome"] ∧ noDupKeys (add_class_list ["Chrome"] "firefox") ∧
    noDupKeys (remove_class_list ["Chrome"] "chrome.desktop") :=
  ⟨by decide, c2_set_classes_no_dedup.2.1 ["Chrome"] "firefox" (by decide),
    c2_set_classes_no_dedup.2.2.1 ["Chrome"] "chrome.desktop" (by decide)⟩

/-- Claim C3, counterexample: in a world whose process environment carries the
non-empty runtime directory `/run/user/1000`, session-environment resolution
nevertheless queries the session-management subsystem (a full list/show
trace) and returns the subsystem's `/other`, not the environment value. -/
theorem c3_counterexample :
    sessionWorldEnvSet.env "XDG_RUNTIME_DIR" = some "/run/user/1000" ∧
    ("/run/user/1000" : String) ≠ "" ∧
    (detect_session_env_for_uid sessionWorldEnvSet 1000).1 =
      .ok (some ("/other", "unix:path=/bus")) ∧
    ("/other" : String) ≠ "/run/user/1000" ∧
    (detect_session_env_for_uid sessionWorldEnvSet 1000).2 = fullRowTrace ∧
    fullRowTrace ≠ [] :=
  ⟨rfl, by decide, rfl, by decide, rfl, by decide⟩

/-- Claim C3 (amended): session-environment resolution never consults the
process's own environment — its result and query trace are independent of it —
and whenever the session-listing tool is available it issues a
session-listing query. -/
theorem c3_env_never_consulted :
    (∀ (w : SessionWorld) (f g : String → Option String) (uid : Nat),
      detect_session_env_for_uid { w with env := f } uid =
        detect_session_env_for_uid { w with env := g } uid) ∧
    (∀ (w : SessionWorld) (uid : Nat), w.haveLoginctl = true →
      SessionQuery.listSessions ∈ (detect_session_env_for_uid w uid).2) := by
  constructor
  · intro w f g uid
    apply detect_session_env_congr <;> rfl
  · intro w uid h
    cases w with
    | mk env rd hl ls ss =>
      rw [show hl = true from h]
      cases ls with
      | error e => simp [detect_session_env_for_uid]
      | ok pr =>
        obtain ⟨succ, outText⟩ := pr
        cases succ
        · simp [detect_session_env_for_uid]
        · simp [detect_session_env_for_uid]

/-- Witness for C3 (amended) at a concrete world. -/
theorem c3_env_never_consulted_witness :
    sessionWorldEnvSet.haveLoginctl = true ∧
    SessionQuery.listSessions ∈ (detect_session_env_for_uid sessionWorldEnvSet 1000).2 :=
  ⟨rfl, c3_env_never_consulted.2 sessionWorldEnvSet 1000 rfl⟩

/-- Claim C4, counterexample: in a world where the target uid's per-uid
runtime directory does not exist on disk, session-environment resolution
still issues the full session-management query trace and succeeds with the
advertised environment instead of failing with NotFound. -/
theorem c4_counterexample :
    sessionWorldNoRuntimeDir.runtimeDirExists 1000 = false ∧
    (detect_session_env_for_uid sessionWorldNoRuntimeDir 1000).1 =
      .ok (some ("/other", "unix:path=/bus")) ∧
    (detect_session_env_for_uid sessionWorldNoRuntimeDir 1000).2 = fullRowTrace ∧
    fullRowTrace ≠ [] ∧
    ∀ e : String,
      (detect_session_env_for_uid sessionWorldNoRuntimeDir 1000).1 ≠ .error e := by
  refine ⟨rfl, rfl, rfl, by decide, ?_⟩
  intro e h
  cases h

/-- Claim C4 (amended): session-environment resolution never checks the
per-uid runtime directory on disk — its result and query trace are
independent of the directory's existence — and even when the directory is
missing it still issues session-management queries whenever the listing tool
is available. -/
theorem c4_disk_never_checked :
    (∀ (w : SessionWorld) (f g : Nat → Bool) (uid : Nat),
      detect_session_env_for_uid { w with runtimeDirExists := f } uid =
        detect_session_env_for_uid { w with runtimeDirExists := g } uid) ∧
    (∀ (w : SessionWorld) (uid : Nat), w.haveLoginctl = true →
      w.runtimeDirExists uid = false →
      (detect_session_env_for_uid w uid).2 ≠ []) := by
  constructor
  · intro w f g uid
    apply detect_session_env_congr <;> rfl
  · intro w uid h _
    cases w with
    | mk env rd hl ls ss =>
      rw [show hl = true from h]
      cases ls with
      | error e => simp [detect_session_env_for_uid]
      | ok pr =>
        obtain ⟨succ, outText⟩ := pr
        cases succ
        · simp [detect_session_env_for_uid]
        · simp [detect_session_env_for_uid]

/-- Witness for C4 (amended) at a concrete world. -/
theorem c4_disk_never_checked_witness :
    sessionWorldNoRuntimeDir.haveLoginctl = true ∧
    sessionWorldNoRuntimeDir.runtimeDirExists 1000 = false ∧
    (detect_session_env_for_uid sessionWorldNoRuntimeDir 1000).2 ≠ [] :=
  ⟨rfl, rfl, c4_disk_never_checked.2 sessionWorldNoRuntimeDir 1000 rfl rfl⟩

/-- Claim C5, counterexample: a permission-style read error during
`set-classes` is swallowed (`unwrap_or_default`): the mutation reports
success and writes the document computed from an empty configuration. -/
theorem c5_counterexample :
    (set_classes_run (.error "permission denied (os error 13)") none reloadWorldAllFail
        ["x"] true).result = .ok () ∧
    (set_classes_run (.error "permission denied (os error 13)") none reloadWorldAllFail
        ["x"] true).written = some (set_classes_doc "" ["x"]) :=
  ⟨rfl, rfl⟩

/-- Claim C5 (amended): a configuration read failure during a mutation is
treated exactly like an empty configuration and the mutation proceeds; only a
write failure surfaces as a failed operation.  This covers both write paths
of the mutating commands: `set_classes` (add-class, remove-class,
set-classes, clear) and `set_enabled` (enable, disable). -/
theorem c5_read_errors_swallowed (e : String) (writeErr : Option String)
    (rwo : ReloadWorld) (classes : List String) (enabled reconf : Bool) :
    set_classes_run (.error e) writeErr rwo classes reconf =
      set_classes_run (.ok "") writeErr rwo classes reconf ∧
    ((set_classes_run (.error e) writeErr rwo classes reconf).result = .ok () ↔
      writeErr = none) ∧
    set_enabled_run (.error e) writeErr rwo enabled reconf =
      set_enabled_run (.ok "") writeErr rwo enabled reconf ∧
    ((set_enabled_run (.error e) writeErr rwo enabled reconf).result = .ok () ↔
      writeErr = none) := by
  refine ⟨rfl, ?_, rfl, ?_⟩
  · cases writeErr with
    | none => simp [set_classes_run]
    | some e2 =>
      simp only [set_classes_run]
      constructor
      · intro h; cases h
      · intro h; cases h
  · cases writeErr with
    | none => simp [set_enabled_run]
    | some e2 =>
      simp only [set_enabled_run]
      constructor
      · intro h; cases h
      · intro h; cases h

/-- Claim C6: the grouped-config upsert is idempotent — applying it a second
time with the same value to the first application's output yields an
identical document — at both (section, key) pairs the program writes. -/
theorem c6_upsert_idempotent (lines : List String) (v : String) :
    upsert GROUP_NAME KEY_NAME (upsert GROUP_NAME KEY_NAME lines v) v =
      upsert GROUP_NAME KEY_NAME lines v ∧
    upsert PLUGINS_GROUP enabledKey (upsert PLUGINS_GROUP enabledKey lines v) v =
      upsert PLUGINS_GROUP enabledKey lines v := by
  constructor
  · exact upsert_idempotent GROUP_NAME KEY_NAME
      (goodKey_of_head KEY_NAME 'f' rfl (by decide) (by decide)) lines v
  · exact upsert_idempotent PLUGINS_GROUP enabledKey
      (goodKey_of_head enabledKey 'k' rfl (by decide) (by decide)) lines v

/-- Claim C7: the reload dispatcher is best-effort — when every candidate
bus tool fails it reports only the manual-command diagnostic and the
enclosing mutation still succeeds, its result independent of the reload
world. -/
theorem c7_reload_best_effort (rwo : ReloadWorld)
    (h : ∀ q ∈ qdbusCandidates, (rwo.haveCmd q && rwo.runOk q) = false) :
    reload_kwin_config rwo = .failure ∧
    reload_messages rwo =
      ["focusctl: could not call qdbus/qdbus6; you may need to run manually:",
       "\tqdbus org.kde.KWin /KWin reconfigure"] ∧
    (∀ (readRes : Except String String) (classes : List String),
      (set_classes_run readRes none rwo classes true).result = .ok () ∧
      (set_classes_run readRes none rwo classes true).written ≠ none) ∧
    (∀ (readRes : Except String String) (writeErr : Option String)
        (classes : List String) (reconf : Bool) (rwo2 : ReloadWorld),
      (set_classes_run readRes writeErr rwo classes reconf).result =
        (set_classes_run readRes writeErr rwo2 classes reconf).result) := by
  have hfail : reload_kwin_config rwo = .failure :=
    reload_try_all_fail rwo qdbusCandidates h
  refine ⟨hfail, ?_, ?_, ?_⟩
  · unfold reload_messages
    rw [hfail]
  · intro readRes classes
    constructor
    · rfl
    · simp [set_classes_run]
  · intro readRes writeErr classes reconf rwo2
    cases writeErr <;> rfl

/-- Witness for C7 at a world with no candidate available. -/
theorem c7_reload_best_effort_witness :
    (∀ q ∈ qdbusCandidates,
      (reloadWorldAllFail.haveCmd q && reloadWorldAllFail.runOk q) = false) ∧
    reload_kwin_config reloadWorldAllFail = .failure :=
  ⟨by decide, (c7_reload_best_effort reloadWorldAllFail (by decide)).1⟩

/-- Claim C8, counterexample: the list `["a b"]` has no duplicate normalized
keys, yet serializing and re-parsing it yields `["a", "b"]` — the claimed
hypothesis (no duplicate keys) does not guarantee the round-trip. -/
theorem c8_counterexample :
    noDupKeys ["a b"] ∧ parse_classes (join_classes ["a b"]) ≠ ["a b"] ∧
    parse_classes (join_classes ["a b"]) = ["a", "b"] :=
  ⟨by decide, by decide, rfl⟩

/-- Claim C8 (amended): serialization round-trips, with order and spelling
preserved, for every class list whose entries are non-empty and free of
separator characters (semicolon, comma, whitespace); no duplicate-key
assumption is needed. -/
theorem c8_roundtrip (l : List String)
    (h : ∀ s ∈ l, s ≠ "" ∧ ∀ c ∈ s.data, isSepChar c = false) :
    parse_classes (join_classes l) = l :=
  parse_join_roundtrip l h

/-- Witness for C8 (amended) at a concrete class list. -/
theorem c8_roundtrip_witness :
    (∀ s ∈ (["Chrome", "firefox.desktop"] : List String),
      s ≠ "" ∧ ∀ c ∈ s.data, isSepChar c = false) ∧
    parse_classes (join_classes ["Chrome", "firefox.desktop"]) =
      ["Chrome", "firefox.desktop"] :=
  ⟨by decide, c8_roundtrip ["Chrome", "firefox.desktop"] (by decide)⟩

/-- Claim C9: when the key occurs on (possibly several) lines inside the
target section, the scan returns the index and value of the last such line in
file order, and the returned section-header index is the last matching
header. -/
theorem c9_last_occurrence_wins (group key : String) (lines : List String) (m j : Nat)
    (hm : keyHitAt group key lines m) (hj : targetHdrAt group lines j) :
    ∃ p q, (locate group key lines).valIdx = some p ∧ m ≤ p ∧
      keyHitAt group key lines p ∧ (∀ k, p < k → ¬ keyHitAt group key lines k) ∧
      (locate group key lines).value = lineValueAt key lines p ∧
      (locate group key lines).hdrIdx = some q ∧ j ≤ q ∧ targetHdrAt group lines q ∧
      ∀ k, q < k → ¬ targetHdrAt group lines k := by
  obtain ⟨p, hvp, hsat, hle, hlast, hval⟩ := locate_val_of_exists group key lines hm
  obtain ⟨q, hq, hsatq, hleq, hlastq⟩ := locate_hdr_of_exists group key lines hj
  exact ⟨p, q, hvp, hle, hsat, hlast, hval, hq, hleq, hsatq, hlastq⟩

/-- Witness for C9 on a document whose key occurs twice inside the section. -/
theorem c9_last_occurrence_wins_witness :
    keyHitAt GROUP_NAME KEY_NAME
      ["[Script-kwin-focus-helper]", "forceFocusClasses=a", "forceFocusClasses=b"] 1 ∧
    targetHdrAt GROUP_NAME
      ["[Script-kwin-focus-helper]", "forceFocusClasses=a", "forceFocusClasses=b"] 0 ∧
    ∃ p q,
      (locate GROUP_NAME KEY_NAME
        ["[Script-kwin-focus-helper]", "forceFocusClasses=a", "forceFocusClasses=b"]).valIdx =
          some p ∧ 1 ≤ p ∧
      keyHitAt GROUP_NAME KEY_NAME
        ["[Script-kwin-focus-helper]", "forceFocusClasses=a", "forceFocusClasses=b"] p ∧
      (∀ k, p < k → ¬ keyHitAt GROUP_NAME KEY_NAME
        ["[Script-kwin-focus-helper]", "forceFocusClasses=a", "forceFocusClasses=b"] k) ∧
      (locate GROUP_NAME KEY_NAME
        ["[Script-kwin-focus-helper]", "forceFocusClasses=a", "forceFocusClasses=b"]).value =
          lineValueAt KEY_NAME
            ["[Script-kwin-focus-helper]", "forceFocusClasses=a", "forceFocusClasses=b"] p ∧
      (locate GROUP_NAME KEY_NAME
        ["[Script-kwin-focus-helper]", "forceFocusClasses=a", "forceFocusClasses=b"]).hdrIdx =
          some q ∧ 0 ≤ q ∧
      targetHdrAt GROUP_NAME
        ["[Script-kwin-focus-helper]", "forceFocusClasses=a", "forceFocusClasses=b"] q ∧
      ∀ k, q < k → ¬ targetHdrAt GROUP_NAME
        ["[Script-kwin-focus-helper]", "forceFocusClasses=a", "forceFocusClasses=b"] k :=
  ⟨by decide, by decide,
    c9_last_occurrence_wins GROUP_NAME KEY_NAME
      ["[Script-kwin-focus-helper]", "forceFocusClasses=a", "forceFocusClasses=b"] 1 0
      (by decide) (by decide)⟩

/-- Claim C10: the enabled flag is a total three-way read: unset exactly when
no `kwin-focus-helperEnabled=` line exists inside `[Plugins]`; otherwise it
reflects the last such line, true exactly when that value, trimmed and
lowercased, is `true`, `1` or `yes` (anything else reads as false, never as
unset). -/
theorem c10_enabled_tristate (lines : List String) :
    ((extract_plugins_enabled lines).2.2 = none ↔
      ∀ m, ¬ keyHitAt PLUGINS_GROUP enabledKey lines m) ∧
    (∀ m, (extract_plugins_enabled lines).2.1 = some m →
      keyHitAt PLUGINS_GROUP enabledKey lines m ∧
      (∀ k, m < k → ¬ keyHitAt PLUGINS_GROUP enabledKey lines k) ∧
      (extract_plugins_enabled lines).2.2 =
        some (truthy (lineValueAt enabledKey lines m))) ∧
    (∀ v : String, truthy v = true ↔
      ((⟨(trimChars v.data).map Char.toLower⟩ : String) = "true" ∨
       (⟨(trimChars v.data).map Char.toLower⟩ : String) = "1" ∨
       (⟨(trimChars v.data).map Char.toLower⟩ : String) = "yes")) := by
  refine ⟨?_, ?_, ?_⟩
  · show ((locate PLUGINS_GROUP enabledKey lines).valIdx.map
        fun _ => truthy (locate PLUGINS_GROUP enabledKey lines).value) = none ↔ _
    rw [Option.map_eq_none']
    exact locate_val_none_iff PLUGINS_GROUP enabledKey lines
  · intro m hm
    have hspec := (locate_val_spec PLUGINS_GROUP enabledKey lines m).1.1 hm
    have hval := (locate_val_spec PLUGINS_GROUP enabledKey lines m).2 hm
    refine ⟨hspec.1, hspec.2, ?_⟩
    have hm2 : (locate PLUGINS_GROUP enabledKey lines).valIdx = some m := hm
    show ((locate PLUGINS_GROUP enabledKey lines).valIdx.map
        fun _ => truthy (locate PLUGINS_GROUP enabledKey lines).value) = _
    rw [hm2, Option.map_some', hval]
  · intro v
    unfold truthy
    simp [Bool.or_eq_true, beq_iff_eq, or_assoc]

/-- Witness for C10 on a document with a malformed value (reads as false). -/
theorem c10_enabled_tristate_witness :
    (extract_plugins_enabled ["[Plugins]", "kwin-focus-helperEnabled=maybe"]).2.1 =
      some 1 ∧
    (extract_plugins_enabled ["[Plugins]", "kwin-focus-helperEnabled=maybe"]).2.2 =
      some false ∧
    (keyHitAt PLUGINS_GROUP enabledKey
        ["[Plugins]", "kwin-focus-helperEnabled=maybe"] 1 ∧
      (∀ k, 1 < k → ¬ keyHitAt PLUGINS_GROUP enabledKey
        ["[Plugins]", "kwin-focus-helperEnabled=maybe"] k) ∧
      (extract_plugins_enabled ["[Plugins]", "kwin-focus-helperEnabled=maybe"]).2.2 =
        some (truthy (lineValueAt enabledKey
          ["[Plugins]", "kwin-focus-helperEnabled=maybe"] 1))) :=
  ⟨rfl, rfl,
    (c10_enabled_tristate ["[Plugins]", "kwin-focus-helperEnabled=maybe"]).2.1 1 rfl⟩

end Focusctl
